import Mathlib

/-!
Verification of the Serena tool-serving core: tool registry and parameter
contract (src/serena/tools/__init__.py), context/mode policy
(src/serena/config/context_mode.py), the agent (src/serena/agent.py) and the
MCP protocol adapter with its schema sanitizer (src/serena/mcp.py).

The Python code is embedded shallowly: Python dicts become association lists
with first-occurrence get/replace-in-place-or-append set (matching Python
dict insertion-order semantics), exceptions become `Except String`, and
Python runtime values become the inductive `PyVal`.
-/

namespace Serena

/-! ## Python value model

`PyVal` models the Python runtime values that flow through tool parameters
and results.  Python floats are modelled with an integer payload because the
embedded code only ever constructs floats from ints/bools via `float(v)`;
non-integral floats are inert for every embedded operation. -/

mutual
inductive PyVal where
  | none : PyVal
  | vBool (b : Bool) : PyVal
  | vInt (n : Int) : PyVal
  | vFloat (n : Int) : PyVal
  | vStr (s : String) : PyVal
  | vList (xs : PyValList) : PyVal
  | vDict (kvs : PyValKVs) : PyVal
deriving DecidableEq, Repr

inductive PyValList where
  | nil : PyValList
  | cons (hd : PyVal) (tl : PyValList) : PyValList
deriving DecidableEq, Repr

inductive PyValKVs where
  | nil : PyValKVs
  | cons (k : String) (v : PyVal) (tl : PyValKVs) : PyValKVs
deriving DecidableEq, Repr
end

/-- The Python types that `Tool._get_json_type` (tools/__init__.py:90-106)
knows about; `ToolParameter.type` ranges over these. -/
inductive PyType where
  | pstr : PyType
  | pint : PyType
  | pfloat : PyType
  | pbool : PyType
  | plist : PyType
  | pdict : PyType
deriving DecidableEq, Repr

/-- Python `type.__name__` for the modelled types. -/
def pyTypeName : PyType → String
  | .pstr => "str"
  | .pint => "int"
  | .pfloat => "float"
  | .pbool => "bool"
  | .plist => "list"
  | .pdict => "dict"

/-- Python `isinstance(value, ty)`.  Note `bool` is a subclass of `int` in
Python, so `isinstance(True, int)` holds. -/
def pyIsInstance : PyVal → PyType → Bool
  | .vStr _, .pstr => true
  | .vInt _, .pint => true
  | .vBool _, .pint => true
  | .vBool _, .pbool => true
  | .vFloat _, .pfloat => true
  | .vList _, .plist => true
  | .vDict _, .pdict => true
  | _, _ => false

/-- Python truthiness `bool(v)`. -/
def pyTruthy : PyVal → Bool
  | .none => false
  | .vBool b => b
  | .vInt n => n ≠ 0
  | .vFloat n => n ≠ 0
  | .vStr s => s ≠ ""
  | .vList .nil => false
  | .vList (.cons _ _) => true
  | .vDict .nil => false
  | .vDict (.cons _ _ _) => true

mutual
/-- Python `repr(v)` (used by `str` inside containers).  Container renderings
are an approximation of CPython formatting; no proved statement depends on
the exact rendered text of containers. -/
def pyReprOf : PyVal → String
  | .none => "None"
  | .vBool true => "True"
  | .vBool false => "False"
  | .vInt n => toString n
  | .vFloat n => toString n ++ ".0"
  | .vStr s => "\x27" ++ s ++ "\x27"
  | .vList xs => "[" ++ pyReprList xs ++ "]"
  | .vDict kvs => "\x7b" ++ pyReprKVs kvs ++ "\x7d"

def pyReprList : PyValList → String
  | .nil => ""
  | .cons x .nil => pyReprOf x
  | .cons x tl => pyReprOf x ++ ", " ++ pyReprList tl

def pyReprKVs : PyValKVs → String
  | .nil => ""
  | .cons k v .nil => "\x27" ++ k ++ "\x27: " ++ pyReprOf v
  | .cons k v tl => "\x27" ++ k ++ "\x27: " ++ pyReprOf v ++ ", " ++ pyReprKVs tl
end

/-- Python `str(v)`: identity on strings, `repr`-style elsewhere. -/
def pyStrOf : PyVal → String
  | .vStr s => s
  | v => pyReprOf v

/-- Builds the Python list of one-character strings for `list(s)`. -/
def pyCharsList : List Char → PyValList
  | [] => .nil
  | c :: cs => .cons (.vStr (String.singleton c)) (pyCharsList cs)

/-- Builds the Python list of keys for `list(d)`. -/
def pyKeysList : PyValKVs → PyValList
  | .nil => .nil
  | .cons k _ tl => .cons (.vStr k) (pyKeysList tl)

/-- Python `int.__str__`-style parse used to model `int(s)`; an approximation
of CPython string-to-int conversion (whitespace/underscore handling omitted).
No proved statement depends on which strings parse. -/
def pyParseInt (s : String) : Option Int := s.toInt?

/-- Models calling `ty(value)` as `Tool.validate_parameters` does
(tools/__init__.py:124); `Option.none` models the `(ValueError, TypeError)`
outcome.  Conversions of containers and of numeric strings are modelled
approximately (see `pyParseInt`); the proved statements hold for any
behaviour of this function. -/
def pyConvert (ty : PyType) (v : PyVal) : Option PyVal :=
  match ty, v with
  | .pstr, v => some (.vStr (pyStrOf v))
  | .pint, .vInt n => some (.vInt n)
  | .pint, .vBool b => some (.vInt (if b then 1 else 0))
  | .pint, .vFloat n => some (.vInt n)
  | .pint, .vStr s => (pyParseInt s).map .vInt
  | .pint, _ => Option.none
  | .pfloat, .vFloat n => some (.vFloat n)
  | .pfloat, .vInt n => some (.vFloat n)
  | .pfloat, .vBool b => some (.vFloat (if b then 1 else 0))
  | .pfloat, .vStr s => (pyParseInt s).map .vFloat
  | .pfloat, _ => Option.none
  | .pbool, v => some (.vBool (pyTruthy v))
  | .plist, .vList xs => some (.vList xs)
  | .plist, .vStr s => some (.vList (pyCharsList s.toList))
  | .plist, .vDict kvs => some (.vList (pyKeysList kvs))
  | .plist, _ => Option.none
  | .pdict, .vDict kvs => some (.vDict kvs)
  | .pdict, _ => Option.none

/-! ## Python dict operations

Association lists with Python dict semantics: lookup returns the first
occurrence, assignment replaces in place or appends, preserving insertion
order. -/

def pyDictGet {α : Type} : List (String × α) → String → Option α
  | [], _ => Option.none
  | (k1, v1) :: tl, k => if k1 = k then some v1 else pyDictGet tl k

def pyDictSet {α : Type} : List (String × α) → String → α → List (String × α)
  | [], k, v => [(k, v)]
  | (k1, v1) :: tl, k, v => if k1 = k then (k1, v) :: tl else (k1, v1) :: pyDictSet tl k v

def pyDictHasKey {α : Type} (l : List (String × α)) (k : String) : Bool :=
  (pyDictGet l k).isSome

def pyDictRemove {α : Type} : List (String × α) → String → List (String × α)
  | [], _ => []
  | (k1, v1) :: tl, k => if k1 = k then tl else (k1, v1) :: pyDictRemove tl k

/-! ## Tool parameters and validation (src/serena/tools/__init__.py) -/

/-- `ToolParameter` (tools/__init__.py:16-23).  A Python `default` of `None`
(the dataclass default) is represented by `PyVal.none`; the code tests
`param.default is not None`. -/
structure ToolParameter where
  name : String
  type : PyType
  description : String
  required : Bool := true
  default : PyVal := PyVal.none
deriving DecidableEq, Repr

/-- The loop body of `Tool.validate_parameters` (tools/__init__.py:108-136),
processing the parameter list in order while threading the `validated` dict. -/
def validateGo : List ToolParameter → List (String × PyVal) → List (String × PyVal) →
    Except String (List (String × PyVal))
  | [], _, validated => .ok validated
  | p :: rest, kwargs, validated =>
      match pyDictGet kwargs p.name with
      | some v =>
          if pyIsInstance v p.type then
            validateGo rest kwargs (pyDictSet validated p.name v)
          else
            match pyConvert p.type v with
            | some v2 => validateGo rest kwargs (pyDictSet validated p.name v2)
            | Option.none =>
                .error ("Parameter " ++ p.name ++ " must be of type " ++ pyTypeName p.type)
      | Option.none =>
          if p.required then
            if p.default ≠ PyVal.none then
              validateGo rest kwargs (pyDictSet validated p.name p.default)
            else .error ("Required parameter " ++ p.name ++ " is missing")
          else
            if p.default ≠ PyVal.none then
              validateGo rest kwargs (pyDictSet validated p.name p.default)
            else validateGo rest kwargs validated

/-- `Tool.validate_parameters` (tools/__init__.py:108-136). -/
def validate_parameters (params : List ToolParameter) (kwargs : List (String × PyVal)) :
    Except String (List (String × PyVal)) :=
  validateGo params kwargs []

/-- The two error shapes `validate_parameters` can produce, each naming the
offending parameter: an unconvertible supplied value, or a missing required
parameter without a default. -/
def validationErrorNames (params : List ToolParameter) (kwargs : List (String × PyVal))
    (e : String) : Prop :=
  (∃ q ∈ params,
      (∃ v, pyDictGet kwargs q.name = some v ∧ pyIsInstance v q.type = false ∧
        pyConvert q.type v = Option.none) ∧
      e = "Parameter " ++ q.name ++ " must be of type " ++ pyTypeName q.type) ∨
  (∃ q ∈ params,
      pyDictGet kwargs q.name = Option.none ∧ q.required = true ∧
      q.default = PyVal.none ∧
      e = "Required parameter " ++ q.name ++ " is missing")

/-! ## Tool registry (src/serena/tools/__init__.py:139-251) -/

/-- The data of a `Tool` object relevant to registration and lookup: `name`
and `description` set in `Tool.__init__`, and the `_parameters` list built by
`add_parameter`.  The executor is dispatched dynamically on the object; it is
modelled separately at the adapter boundary (`ExecOutcome`). -/
structure SerenaTool where
  name : String
  description : String
  parameters : List ToolParameter
deriving DecidableEq, Repr

/-- `ToolRegistry.tools`, a Python dict from name to tool. -/
structure ToolRegistry where
  tools : List (String × SerenaTool)
deriving DecidableEq, Repr

/-- `ToolRegistry.register_tool` (tools/__init__.py:171-178):
`self.tools[tool.name] = tool` (plus a debug log). -/
def register_tool (r : ToolRegistry) (t : SerenaTool) : ToolRegistry :=
  ⟨pyDictSet r.tools t.name t⟩

/-- `ToolRegistry.unregister_tool` (tools/__init__.py:180-188). -/
def unregister_tool (r : ToolRegistry) (name : String) : ToolRegistry :=
  ⟨pyDictRemove r.tools name⟩

/-- `ToolRegistry.get_tool` (tools/__init__.py:190-197): `self.tools.get(name)`. -/
def get_tool (r : ToolRegistry) (name : String) : Option SerenaTool :=
  pyDictGet r.tools name

/-- `ToolRegistry.list_tools` (tools/__init__.py:199-205): `list(self.tools.keys())`. -/
def list_tools (r : ToolRegistry) : List String :=
  r.tools.map Prod.fst

/-- `PlaceholderTool.__init__` (tools/__init__.py:218-239): the common
`query` and `path` parameters added to every placeholder tool. -/
def placeholderTool (name description : String) : SerenaTool :=
  { name := name
    description := description
    parameters :=
      [ { name := "query", type := .pstr, description := "Query or search term",
          required := false, default := .vStr "" },
        { name := "path", type := .pstr, description := "File or directory path",
          required := false, default := .vStr "." } ] }

/-- The `builtin_tools` list of `ToolRegistry._load_builtin_tools`
(tools/__init__.py:153-165). -/
def builtin_tools : List (String × String) :=
  [ ("find_symbol", "Find symbols in the codebase"),
    ("get_symbols_overview", "Get overview of symbols in a file"),
    ("find_referencing_symbols", "Find symbols that reference a given symbol"),
    ("search_for_pattern", "Search for patterns in the codebase"),
    ("list_dir", "List directory contents"),
    ("find_file", "Find files in the project"),
    ("edit_symbol", "Edit a symbol in the codebase"),
    ("create_file", "Create a new file"),
    ("delete_file", "Delete a file"),
    ("analyze_code", "Analyze code quality and structure"),
    ("generate_report", "Generate analysis reports") ]

/-- `ToolRegistry.__init__` (tools/__init__.py:142-169): start from an empty
dict and register a `PlaceholderTool` for each entry of `builtin_tools`. -/
def ToolRegistry.new : ToolRegistry :=
  builtin_tools.foldl (fun r nd => register_tool r (placeholderTool nd.1 nd.2)) ⟨[]⟩

/-! ## Contexts and modes (src/serena/config/context_mode.py) -/

/-- `SerenaAgentContext` (context_mode.py:16-23).  Settings values are
modelled as `PyVal`. -/
structure SerenaAgentContext where
  name : String
  description : String := ""
  settings : List (String × PyVal) := []
  tools : List String := []
  memory_settings : List (String × PyVal) := []
deriving DecidableEq, Repr

/-- `SerenaAgentMode` (context_mode.py:76-83). -/
structure SerenaAgentMode where
  name : String
  description : String := ""
  enabled_tools : List String := []
  disabled_tools : List String := []
  settings : List (String × PyVal) := []
deriving DecidableEq, Repr

/-- The built-in `"default"` context (context_mode.py:38-43). -/
def contextDefault : SerenaAgentContext :=
  { name := "default"
    description := "Default context with standard tools"
    tools := ["find_symbol", "get_symbols_overview", "search_for_pattern"]
    settings := [("max_results", .vInt 100), ("timeout", .vInt 30)] }

/-- The built-in `"minimal"` context (context_mode.py:44-49). -/
def contextMinimal : SerenaAgentContext :=
  { name := "minimal"
    description := "Minimal context with basic tools only"
    tools := ["find_symbol", "search_for_pattern"]
    settings := [("max_results", .vInt 50), ("timeout", .vInt 15)] }

/-- The built-in `"full"` context (context_mode.py:50-55); empty `tools`
means all tools. -/
def contextFull : SerenaAgentContext :=
  { name := "full"
    description := "Full context with all available tools"
    tools := []
    settings := [("max_results", .vInt 500), ("timeout", .vInt 60)] }

/-- The built-in `"interactive"` mode (context_mode.py:98-103). -/
def modeInteractive : SerenaAgentMode :=
  { name := "interactive"
    description := "Interactive mode for user communication"
    enabled_tools := ["ask_user", "show_message"]
    settings := [("interactive", .vBool true), ("auto_confirm", .vBool false)] }

/-- The built-in `"editing"` mode (context_mode.py:104-109). -/
def modeEditing : SerenaAgentMode :=
  { name := "editing"
    description := "Editing mode for code modifications"
    enabled_tools := ["edit_symbol", "create_file", "delete_file"]
    settings := [("backup_files", .vBool true), ("validate_syntax", .vBool true)] }

/-- The built-in `"analysis"` mode (context_mode.py:110-116). -/
def modeAnalysis : SerenaAgentMode :=
  { name := "analysis"
    description := "Analysis mode for code inspection"
    enabled_tools := ["analyze_code", "generate_report"]
    disabled_tools := ["edit_symbol", "create_file", "delete_file"]
    settings := [("deep_analysis", .vBool true), ("generate_metrics", .vBool true)] }

/-- The built-in `"monitoring"` mode (context_mode.py:117-122). -/
def modeMonitoring : SerenaAgentMode :=
  { name := "monitoring"
    description := "Monitoring mode for watching changes"
    enabled_tools := ["watch_files", "track_changes"]
    settings := [("watch_interval", .vFloat 1), ("auto_refresh", .vBool true)] }

/-- Outcome of the filesystem interaction of `SerenaAgentContext.load` /
`SerenaAgentMode.load`: the file name does not exist or lacks the `.json`
suffix (`notLoadable`), or `json.load` / `cls(**data)` raised inside the
`try` (`loadFailed`), or the file loaded into a configuration (`loaded`).
The filesystem and JSON parser are abstracted into this oracle; the
surrounding control flow is embedded from the source. -/
inductive FileLoad (α : Type) where
  | notLoadable : FileLoad α
  | loadFailed (err : String) : FileLoad α
  | loaded (a : α) : FileLoad α
deriving DecidableEq, Repr

/-- `SerenaAgentContext.load` (context_mode.py:25-73) for a string argument
(the `isinstance(context, cls)` branch returns an existing instance and is
not reachable for string inputs).  Returns the resulting context together
with the list of emitted warnings.  Warning texts approximate the source
f-strings (quote characters dropped). -/
def SerenaAgentContext.load (context : String) (file : FileLoad SerenaAgentContext) :
    SerenaAgentContext × List String :=
  if context = "default" then (contextDefault, [])
  else if context = "minimal" then (contextMinimal, [])
  else if context = "full" then (contextFull, [])
  else
    match file with
    | .loaded c => (c, [])
    | .loadFailed e =>
        (contextDefault,
          ["Failed to load context from " ++ context ++ ": " ++ e,
           "Context " ++ context ++ " not found, using default"])
    | .notLoadable =>
        (contextDefault, ["Context " ++ context ++ " not found, using default"])

/-- `SerenaAgentMode.load` (context_mode.py:85-140), analogous to
`SerenaAgentContext.load`; the fallback is the `"interactive"` mode. -/
def SerenaAgentMode.load (mode : String) (file : FileLoad SerenaAgentMode) :
    SerenaAgentMode × List String :=
  if mode = "interactive" then (modeInteractive, [])
  else if mode = "editing" then (modeEditing, [])
  else if mode = "analysis" then (modeAnalysis, [])
  else if mode = "monitoring" then (modeMonitoring, [])
  else
    match file with
    | .loaded m => (m, [])
    | .loadFailed e =>
        (modeInteractive,
          ["Failed to load mode from " ++ mode ++ ": " ++ e,
           "Mode " ++ mode ++ " not found, using interactive"])
    | .notLoadable =>
        (modeInteractive, ["Mode " ++ mode ++ " not found, using interactive"])

/-- `SerenaAgentMode.is_tool_enabled` (context_mode.py:142-155). -/
def is_tool_enabled (m : SerenaAgentMode) (tool_name : String) : Bool :=
  if tool_name ∈ m.disabled_tools then false
  else if !m.enabled_tools.isEmpty && tool_name ∉ m.enabled_tools then false
  else true

/-- Modelled from the spec: the repository contains no capability resolver —
`SerenaAgent.get_available_tools` (agent.py:165-171) ignores context and
modes entirely — so the resolved visible set referenced by the spec is
modelled from §4.2 of the spec: base is the context whitelist (or all
registered names when the whitelist is empty), minus the union of all modes'
`disabled_tools`, intersected with the union of the non-empty
`enabled_tools` overlays when any exist. -/
def resolveVisible (registryNames : List String) (ctx : SerenaAgentContext)
    (modes : List SerenaAgentMode) : List String :=
  let base := if ctx.tools.isEmpty then registryNames else ctx.tools
  let deny := (modes.map SerenaAgentMode.disabled_tools).flatten
  let overlays := (modes.map SerenaAgentMode.enabled_tools).filter (fun l => !l.isEmpty)
  let allowed :=
    if overlays.isEmpty then base
    else base.filter (fun n => (overlays.flatten).contains n)
  allowed.filter (fun n => !deny.contains n)

/-! ## Agent and MCP adapter (src/serena/agent.py, src/serena/mcp.py) -/

/-- `SerenaConfig` (agent.py:21-28). -/
structure SerenaConfig where
  project_path : Option String := Option.none
  context : Option SerenaAgentContext := Option.none
  modes : List SerenaAgentMode := []
  tools : List String := []
  settings : List (String × PyVal) := []

/-- `SerenaAgent` state relevant to tool exposure: the configuration and the
tool registry. -/
structure SerenaAgent where
  config : SerenaConfig
  tool_registry : ToolRegistry

/-- `SerenaAgent.__init__` (agent.py:34-47): constructs a fresh
`ToolRegistry()` and runs `_initialize`.  `_initialize`, `_load_tools`,
`_load_default_tools`, `_load_mode_tools` and `_load_tool`
(agent.py:65-147) only perform `get_tool` lookups and logging — no
registration, unregistration or filtering — so the registry after
construction is exactly `ToolRegistry.new`. -/
def SerenaAgent.init (config : SerenaConfig) : SerenaAgent :=
  ⟨config, ToolRegistry.new⟩

/-- `SerenaAgent.get_available_tools` (agent.py:165-171):
`list(self.tool_registry.tools.values())` — the full registry, with no
context/mode filtering. -/
def get_available_tools (a : SerenaAgent) : List SerenaTool :=
  a.tool_registry.tools.map Prod.snd

/-- `SerenaMCPFactory._register_tools` (mcp.py:187-201): one MCP tool is
registered on the server per element of `agent.get_available_tools()`, named
`tool.name` (mcp.py:219).  The value is the list of wire-bound handler
names, in registration order. -/
def mcpBoundToolNames (a : SerenaAgent) : List String :=
  (get_available_tools a).map SerenaTool.name

/-- Outcome of `await tool.execute(context, **kwargs)` inside
`mcp_tool_wrapper` (mcp.py:227): either a returned value or a raised
exception carrying its message `str(e)`. -/
inductive ExecOutcome where
  | result (v : PyVal) : ExecOutcome
  | raised (e : String) : ExecOutcome
deriving DecidableEq, Repr

/-- `mcp_tool_wrapper` (mcp.py:220-237): returns the result string (the
value itself when it is a `str`, `str(result)` otherwise), and on any
exception catches it, logs an error and returns the `"Error: ..."` payload.
The second component is the list of emitted error-log lines. -/
def mcp_tool_wrapper (toolName : String) (outcome : ExecOutcome) : String × List String :=
  match outcome with
  | .result r =>
      (match r with
       | .vStr s => s
       | v => pyStrOf v, [])
  | .raised e =>
      ("Error: " ++ e, ["Error executing tool " ++ toolName ++ ": " ++ e])

/-- The serving loop: each incoming call is handled by its tool's wrapper
independently; a call is a bound handler name together with the executor
outcome it produces. -/
def serveCalls (calls : List (String × ExecOutcome)) : List String :=
  calls.map (fun c => (mcp_tool_wrapper c.1 c.2).1)

/-- Well-formedness of a registry: every stored tool is keyed by its own
name.  `register_tool` only creates such entries. -/
def WellFormedRegistry (r : ToolRegistry) : Prop :=
  ∀ p ∈ r.tools, (Prod.snd p).name = p.1

/-! ## The schema sanitizer (`SerenaMCPFactory._sanitize_for_openai_tools`,
src/serena/mcp.py:68-149)

The JSON tree the sanitizer walks.  As with `PyVal`, Python floats carry an
integer payload: the sanitizer only ever constructs floats via `float(v)` on
ints/bools, and any pre-existing float in a schema is inert (it is neither
an `int` for `isinstance` nor equal to any string). -/

mutual
inductive Json where
  | null : Json
  | jbool (b : Bool) : Json
  | jint (n : Int) : Json
  | jfloat (n : Int) : Json
  | jstr (s : String) : Json
  | arr (xs : JsonList) : Json
  | obj (kvs : JsonObj) : Json
deriving DecidableEq, Repr

inductive JsonList where
  | nil : JsonList
  | cons (hd : Json) (tl : JsonList) : JsonList
deriving DecidableEq, Repr

inductive JsonObj where
  | nil : JsonObj
  | cons (k : String) (v : Json) (tl : JsonObj) : JsonObj
deriving DecidableEq, Repr
end

/-- Python `node.get(k)`: first occurrence (a `json.loads` result has no
duplicate keys, later occurrences would be inert anyway). -/
def objGet : JsonObj → String → Option Json
  | .nil, _ => Option.none
  | .cons k1 v1 tl, k => if k1 = k then some v1 else objGet tl k

/-- Python `node[k] = v`: replace in place, else append (insertion order). -/
def objSet : JsonObj → String → Json → JsonObj
  | .nil, k, v => .cons k v .nil
  | .cons k1 v1 tl, k, v =>
      if k1 = k then .cons k1 v tl else .cons k1 v1 (objSet tl k v)

/-- Python `k in node`. -/
def objHasKey (node : JsonObj) (k : String) : Bool :=
  (objGet node k).isSome

/-- Python `node.pop(k)` (the removal; the popped value is unused). -/
def objRemove : JsonObj → String → JsonObj
  | .nil, _ => .nil
  | .cons k1 v1 tl, k => if k1 = k then tl else .cons k1 v1 (objRemove tl k)

/-- Python `node.update(m)`: assign each entry of `m` in order. -/
def objUpdate : JsonObj → JsonObj → JsonObj
  | node, .nil => node
  | node, .cons k v tl => objUpdate (objSet node k v) tl

/-- Python `x == s` for a string literal `s`: true exactly for the equal
string (no non-string value equals a string in Python). -/
def isStrEq : Json → String → Bool
  | .jstr t, s => t = s
  | _, _ => false

/-- Python `s in xs` for a string literal `s`. -/
def anyStrEq : JsonList → String → Bool
  | .nil, _ => false
  | .cons x tl, s => isStrEq x s || anyStrEq tl s

/-- Python `isinstance(v, int)` inside the enum rule: ints and bools. -/
def jIntLike : Json → Bool
  | .jint _ => true
  | .jbool _ => true
  | _ => false

/-- `all(isinstance(v, int) for v in enum_vals)`. -/
def allIntLike : JsonList → Bool
  | .nil => true
  | .cons x tl => jIntLike x && allIntLike tl

/-- Python `float(v)` on the values of an all-int enum. -/
def jFloatOf : Json → Json
  | .jint n => .jfloat n
  | .jbool b => .jfloat (if b then 1 else 0)
  | v => v

/-- `[float(v) for v in enum_vals]`. -/
def mapFloat : JsonList → JsonList
  | .nil => .nil
  | .cons x tl => .cons (jFloatOf x) (mapFloat tl)

/-- `[x if x != "integer" else "number" for x in t if x != "null"]`
(mcp.py:101). -/
def sanitizeTypeList : JsonList → JsonList
  | .nil => .nil
  | .cons x tl =>
      if isStrEq x "null" then sanitizeTypeList tl
      else .cons (if isStrEq x "integer" then .jstr "number" else x) (sanitizeTypeList tl)

/-- `if "multipleOf" not in node: node["multipleOf"] = 1` (mcp.py:97-98,
108-109, 119-120, 141-142). -/
def ensureMultipleOf (node : JsonObj) : JsonObj :=
  if objHasKey node "multipleOf" then node else objSet node "multipleOf" (.jint 1)

/-- `if not t2: t2 = ["object"]` (mcp.py:102-104). -/
def withObjectDefault : JsonList → JsonList
  | .nil => .cons (.jstr "object") .nil
  | l => l

/-- `t2[0] if len(t2) == 1 else t2` (mcp.py:105). -/
def scalarOrList : JsonList → Json
  | .cons x .nil => x
  | l => .arr l

/-- The union-type branch of the type rule after `t2` has been computed
(mcp.py:105-109): store the collapsed-or-list type, and ensure
`multipleOf: 1` when `"integer" in t or "number" in t2`. -/
def applyTypeRuleArr2 (node : JsonObj) (ts t2 : JsonList) : JsonObj :=
  if anyStrEq ts "integer" || anyStrEq t2 "number" then
    ensureMultipleOf (objSet node "type" (scalarOrList t2))
  else objSet node "type" (scalarOrList t2)

/-- The union-type branch of the type rule (mcp.py:99-109). -/
def applyTypeRuleArr (node : JsonObj) (ts : JsonList) : JsonObj :=
  applyTypeRuleArr2 node ts (withObjectDefault (sanitizeTypeList ts))

/-- The `---- handle type ----` block of `walk` (mcp.py:91-109). -/
def applyTypeRule (node : JsonObj) : JsonObj :=
  match objGet node "type" with
  | some (.jstr t) =>
      if t = "integer" then ensureMultipleOf (objSet node "type" (.jstr "number"))
      else node
  | some (.arr ts) => applyTypeRuleArr node ts
  | _ => node

/-- Python `node.get("type") == "integer"` (mcp.py:117): `None` and
non-strings are never equal to a string. -/
def isStrEqOpt : Option Json → String → Bool
  | some v, s => isStrEq v s
  | Option.none, _ => false

/-- The promotion step of the enum rule (mcp.py:117-120), applied after the
enum values have been replaced: `if node.get("type") == "integer"`, set
`"type"` to `"number"` and ensure `multipleOf`. -/
def applyEnumRulePromote (node1 : JsonObj) : JsonObj :=
  if isStrEqOpt (objGet node1 "type") "integer" then
    ensureMultipleOf (objSet node1 "type" (.jstr "number"))
  else node1

/-- The firing branch of the enum rule (mcp.py:116-120): replace the enum
values with their floats, then the promotion step. -/
def applyEnumRuleFire (node : JsonObj) (vs : JsonList) : JsonObj :=
  applyEnumRulePromote (objSet node "enum" (.arr (mapFloat vs)))

/-- The `---- handle enum ----` block of `walk` (mcp.py:111-120).  The guard
`if enum_vals and isinstance(enum_vals, list)` requires a non-empty list. -/
def applyEnumRule (node : JsonObj) : JsonObj :=
  match objGet node "enum" with
  | some (.arr (.cons v vs)) =>
      if allIntLike (.cons v vs) then applyEnumRuleFire node (.cons v vs)
      else node
  | _ => node

def isRecKey (k : String) : Bool :=
  k = "properties" || k = "additionalProperties" || k = "items"

def isUnionKey (k : String) : Bool :=
  k = "oneOf" || k = "anyOf" || k = "allOf"

def isMergeKey (k : String) : Bool :=
  k = "oneOf" || k = "anyOf"

/-- Python hashability of the values `item.get("type")` can produce: lists
and dicts are unhashable, everything else hashes. -/
def jHashable : Json → Bool
  | .arr _ => false
  | .obj _ => false
  | _ => true

/-- `types = [item.get("type") for item in value]; set(types) ==
{"integer","number"}` (mcp.py:136-137) for a two-element branch list:
`item.get` on a non-dict raises `AttributeError`; `set(...)` on an
unhashable element raises `TypeError`; the set comparison holds exactly when
the two types are the strings `"integer"` and `"number"` in either order. -/
def mergeCheck (a b : Json) : Except String Bool :=
  match a, b with
  | .obj ma, .obj mb =>
      if jHashable ((objGet ma "type").getD .null) &&
          jHashable ((objGet mb "type").getD .null) then
        .ok ((isStrEq ((objGet ma "type").getD .null) "integer" &&
              isStrEq ((objGet mb "type").getD .null) "number") ||
             (isStrEq ((objGet ma "type").getD .null) "number" &&
              isStrEq ((objGet mb "type").getD .null) "integer"))
      else .error "TypeError: unhashable type in set"
  | _, _ => .error "AttributeError: item has no attribute get"

/-- The merge action (mcp.py:138-144): `merged = deepcopy(value[0]);
merged["type"] = "number"; merged.setdefault multipleOf; node.pop(key);
node.update(merged)`.  (CPython would raise `RuntimeError` on the next loop
step after `pop`/`update` unless `key` was last; the branch is proved
unreachable below — `mergeCheck` never returns `ok true` on walked branches
— so the functional rendering is only a placeholder for dead code.) -/
def doMerge (node : JsonObj) (key : String) (first : Json) : JsonObj :=
  match first with
  | .obj m0 =>
      let m1 := objSet m0 "type" (.jstr "number")
      let m2 := if objHasKey m1 "multipleOf" then m1 else objSet m1 "multipleOf" (.jint 1)
      objUpdate (objRemove node key) m2
  | _ => node

/-- The merge pass over the entries of a node (mcp.py:130-144, the
`oneOf`/`anyOf` simplification): iterate the entries, and for a `oneOf` or
`anyOf` key holding a two-element list, run `mergeCheck` on the (already
walked) branches and merge on success.  The first argument is the entry list
being iterated, the second the node being threaded. -/
def mergeScanGo : JsonObj → JsonObj → Except String JsonObj
  | .nil, node => .ok node
  | .cons k v tl, node =>
      if isMergeKey k then
        match v with
        | .arr (.cons a (.cons b .nil)) =>
            match mergeCheck a b with
            | .error e => .error e
            | .ok true => mergeScanGo tl (doMerge node k a)
            | .ok false => mergeScanGo tl node
        | _ => mergeScanGo tl node
      else mergeScanGo tl node

def mergeScan (node : JsonObj) : Except String JsonObj :=
  mergeScanGo node node

/-- Post-recursion processing of a dict node: the `type` rule, the `enum`
rule, and the merge pass, then rewrap.  Factored out of `walk` so that the
recursion in `walkObjEntries` is structural. -/
def walkNodeCore (r : Except String JsonObj) : Except String Json :=
  match r with
  | .error e => .error e
  | .ok w =>
      match mergeScan (applyEnumRule (applyTypeRule w)) with
      | .error e => .error e
      | .ok r2 => .ok (.obj r2)

mutual
/-- `walk` (mcp.py:86-146).  Non-dicts are returned unchanged (mcp.py:87-89).

The embedding evaluates the phases in the order: recursion into the values
of the six structural keys, then the `type` rule, then the `enum` rule, then
the merge pass — where CPython runs the `type` and `enum` rules first and
interleaves the merge checks with the recursion inside one loop over the
keys.  The reordering is semantics-preserving: the `type`/`enum` rules read
and write only the keys `"type"`, `"enum"` and `"multipleOf"`, which are
disjoint from the six keys whose values the recursion rewrites, and no merge
ever fires (proved below: `mergeCheck` cannot return `ok true` on walked
branches, since walking replaces every `"integer"` type).  Only which of
several errors surfaces can differ, never whether one does. -/
def walk : Json → Except String Json
  | .obj kvs => walkNodeCore (walkObjEntries kvs)
  | j => .ok j

/-- The recursion of `walk` into `properties`/`additionalProperties`/`items`
(dict: walk it; list: walk each item) and into each branch of
`oneOf`/`anyOf`/`allOf` (mcp.py:122-133); all other keys are untouched. -/
def walkObjEntries : JsonObj → Except String JsonObj
  | .nil => .ok .nil
  | .cons k v tl =>
      let ev : Except String Json :=
        if isRecKey k then
          match v with
          | .arr xs =>
              match walkJsonList xs with
              | .ok ys => .ok (.arr ys)
              | .error e => .error e
          | .obj kvs2 => walkNodeCore (walkObjEntries kvs2)
          | _ => .ok v
        else if isUnionKey k then
          match v with
          | .arr xs =>
              match walkJsonList xs with
              | .ok ys => .ok (.arr ys)
              | .error e => .error e
          | _ => .ok v
        else .ok v
      match ev, walkObjEntries tl with
      | .ok v2, .ok tl2 => .ok (.cons k v2 tl2)
      | .error e, _ => .error e
      | _, .error e => .error e

/-- `for item in value: walk(item)`. -/
def walkJsonList : JsonList → Except String JsonList
  | .nil => .ok .nil
  | .cons x tl =>
      match walk x, walkJsonList tl with
      | .ok y, .ok tl2 => .ok (.cons y tl2)
      | .error e, _ => .error e
      | _, .error e => .error e
end

/-- `_sanitize_for_openai_tools` (mcp.py:68-149) applied to the parsed
schema: `json.loads`, the `deepcopy` (pure embedding) and the `lru_cache`
memoisation are outside the model. -/
def sanitize (s : Json) : Except String Json := walk s

/-- The per-entry computation of `walkObjEntries`, named for use in proofs;
`walkObjEntries_cons` below shows it is definitionally the `let ev` of
`walkObjEntries`. -/
def walkEntryValue (k : String) (v : Json) : Except String Json :=
  if isRecKey k then
    match v with
    | .arr xs =>
        match walkJsonList xs with
        | .ok ys => .ok (.arr ys)
        | .error e => .error e
    | .obj kvs2 => walkNodeCore (walkObjEntries kvs2)
    | _ => .ok v
  else if isUnionKey k then
    match v with
    | .arr xs =>
        match walkJsonList xs with
        | .ok ys => .ok (.arr ys)
        | .error e => .error e
    | _ => .ok v
  else .ok v

/-! ## Schema-shapedness and invariants used for idempotence (C3)

`schemaShaped` captures the claim's domain qualifier "a JSON-Schema-shaped
tree": every `"type"` field that is an array holds only strings (as JSON
Schema requires), hereditarily at each position the walk recurses into.  All
other values are unconstrained. -/

def jIsStr : Json → Bool
  | .jstr _ => true
  | _ => false

def allStrJson : JsonList → Bool
  | .nil => true
  | .cons x tl => jIsStr x && allStrJson tl

/-- A `"type"` field value allowed by JSON Schema shape: anything but an
array with a non-string entry. -/
def typeFieldOK : Json → Bool
  | .arr ts => allStrJson ts
  | _ => true

mutual
def schemaShaped : Json → Bool
  | .obj kvs => schemaShapedObj kvs
  | .arr xs => schemaShapedList xs
  | _ => true

def schemaShapedObj : JsonObj → Bool
  | .nil => true
  | .cons k v tl =>
      (if k = "type" then typeFieldOK v else true) &&
      (if isRecKey k || isUnionKey k then schemaShaped v else true) &&
      schemaShapedObj tl

def schemaShapedList : JsonList → Bool
  | .nil => true
  | .cons x tl => schemaShaped x && schemaShapedList tl
end

def jlLength : JsonList → Nat
  | .nil => 0
  | .cons _ tl => jlLength tl + 1

/-- A walked object never carries the scalar type `"integer"`. -/
def OutTypeOK (y : Json) : Prop :=
  ∀ m, y = Json.obj m → objGet m "type" ≠ some (.jstr "integer")

/-- Every element of the list satisfies `P`. -/
def JLAll (P : Json → Prop) : JsonList → Prop
  | .nil => True
  | .cons x tl => P x ∧ JLAll P tl

/-- No entry of the node can fire the `oneOf`/`anyOf` merge. -/
def NoMergeObj : JsonObj → Prop
  | .nil => True
  | .cons k v tl =>
      (isMergeKey k = true → ∀ a b, v = .arr (.cons a (.cons b .nil)) →
        mergeCheck a b ≠ .ok true) ∧ NoMergeObj tl

/-- The recursion pass leaves the entry list unchanged. -/
def EntriesStable (kvs : JsonObj) : Prop := walkObjEntries kvs = .ok kvs

/-- The state of the `"type"` field after the type rule has run: never the
scalar `"integer"`; an array type is a string list without `"null"` or
`"integer"` entries, of length at least two, carrying `"multipleOf"`
whenever it contains `"number"`. -/
def TypeDone (node : JsonObj) : Prop :=
  match objGet node "type" with
  | some (.jstr t) => t ≠ "integer"
  | some (.arr ts) =>
      allStrJson ts = true ∧ anyStrEq ts "null" = false ∧
      anyStrEq ts "integer" = false ∧ 2 ≤ jlLength ts ∧
      (anyStrEq ts "number" = true → objHasKey node "multipleOf" = true)
  | _ => True

/-- The state of the `"enum"` field after the enum rule has run: a non-empty
enum list is never all-int. -/
def EnumDone (node : JsonObj) : Prop :=
  match objGet node "enum" with
  | some (.arr (.cons v vs)) => allIntLike (.cons v vs) = false
  | _ => True

/-- Induction motive for idempotence at `Json` nodes: on shaped input, the
walk's output is a fixed point with a non-`"integer"` type, and the elements
of a walked array are fixed points too. -/
def WalkIdemJson (x : Json) : Prop :=
  schemaShaped x = true →
    (∀ y, walk x = .ok y → walk y = .ok y ∧ OutTypeOK y) ∧
    (∀ xs ys, x = Json.arr xs → walkJsonList xs = .ok ys →
      walkJsonList ys = .ok ys ∧ JLAll OutTypeOK ys)

/-- Induction motive for idempotence at branch lists. -/
def WalkIdemList (xs : JsonList) : Prop :=
  schemaShapedList xs = true →
    ∀ ys, walkJsonList xs = .ok ys →
      walkJsonList ys = .ok ys ∧ JLAll OutTypeOK ys

/-- Induction motive for idempotence at entry lists: the recursion pass is
stable on its own output and that output cannot fire the merge. -/
def WalkIdemObj (kvs : JsonObj) : Prop :=
  schemaShapedObj kvs = true →
    ∀ w, walkObjEntries kvs = .ok w → EntriesStable w ∧ NoMergeObj w

/-! ## C5 / C4 evaluation inputs -/

/-- The C5 input schema, `\x7b"type": "integer", "enum": [1, 2, 3]\x7d`. -/
def exIntegerEnum : Json :=
  .obj (.cons "type" (.jstr "integer")
    (.cons "enum" (.arr (.cons (.jint 1) (.cons (.jint 2) (.cons (.jint 3) .nil)))) .nil))

/-- The C4 input schema,
`\x7b"oneOf": [\x7b"type": "integer"\x7d, \x7b"type": "number"\x7d]\x7d`. -/
def exOneOfIntNum : Json :=
  .obj (.cons "oneOf"
    (.arr (.cons (.obj (.cons "type" (.jstr "integer") .nil))
      (.cons (.obj (.cons "type" (.jstr "number") .nil)) .nil))) .nil)

/-- The single merged node the spec says C4's input collapses to. -/
def mergedNumberNode : Json :=
  .obj (.cons "type" (.jstr "number") (.cons "multipleOf" (.jint 1) .nil))

/-! ## Dictionary lemmas -/

theorem pyDictGet_set_same {α : Type} (l : List (String × α)) (k : String) (v : α) :
    pyDictGet (pyDictSet l k v) k = some v := by
  induction l with
  | nil => simp [pyDictSet, pyDictGet]
  | cons hd tl ih =>
      obtain ⟨k1, v1⟩ := hd
      by_cases h : k1 = k <;> simp [pyDictSet, pyDictGet, h, ih]

theorem pyDictGet_set_ne {α : Type} (l : List (String × α)) (k k2 : String) (v : α)
    (h : k ≠ k2) : pyDictGet (pyDictSet l k v) k2 = pyDictGet l k2 := by
  induction l with
  | nil => simp [pyDictSet, pyDictGet, h]
  | cons hd tl ih =>
      obtain ⟨k1, v1⟩ := hd
      by_cases h1 : k1 = k
      · subst h1
        simp [pyDictSet, pyDictGet, h]
      · simp [pyDictSet, pyDictGet, h1, ih]

theorem pyDictSet_length_of_mem {α : Type} (l : List (String × α)) (k : String) (v : α)
    (h : k ∈ l.map Prod.fst) : (pyDictSet l k v).length = l.length := by
  induction l with
  | nil => simp at h
  | cons hd tl ih =>
      obtain ⟨k1, v1⟩ := hd
      by_cases h1 : k1 = k
      · simp [pyDictSet, h1]
      · simp only [List.map_cons, List.mem_cons] at h
        rcases h with h | h
        · exact absurd h.symm h1
        · simp [pyDictSet, h1, ih h]

/-! ## Validation lemmas (towards C6) -/

theorem validateGo_get_of_not_mem (kwargs : List (String × PyVal)) (k : String) :
    ∀ (params : List ToolParameter) (acc m : List (String × PyVal)),
      validateGo params kwargs acc = .ok m →
      k ∉ params.map ToolParameter.name →
      pyDictGet m k = pyDictGet acc k := by
  intro params
  induction params with
  | nil =>
      intro acc m hok _
      simp only [validateGo] at hok
      cases hok
      rfl
  | cons p rest ih =>
      intro acc m hok hk
      simp only [List.map_cons, List.mem_cons, not_or] at hk
      have hset : ∀ d, pyDictGet (pyDictSet acc p.name d) k = pyDictGet acc k :=
        fun d => pyDictGet_set_ne acc p.name k d (fun h => hk.1 h.symm)
      simp only [validateGo] at hok
      split at hok
      · split at hok
        · rw [ih _ _ hok hk.2, hset]
        · split at hok
          · rw [ih _ _ hok hk.2, hset]
          · cases hok
      · split at hok
        · split at hok
          · rw [ih _ _ hok hk.2, hset]
          · cases hok
        · split at hok
          · rw [ih _ _ hok hk.2, hset]
          · exact ih _ _ hok hk.2

theorem validateGo_ok_mem (kwargs : List (String × PyVal)) :
    ∀ (params : List ToolParameter) (acc m : List (String × PyVal)),
      (params.map ToolParameter.name).Nodup →
      validateGo params kwargs acc = .ok m →
      ∀ p ∈ params,
        (∀ v, pyDictGet kwargs p.name = some v →
            pyDictGet m p.name = some v ∨
              (pyIsInstance v p.type = false ∧
               pyDictGet m p.name = pyConvert p.type v)) ∧
        (pyDictGet kwargs p.name = Option.none → p.default ≠ PyVal.none →
            pyDictGet m p.name = some p.default) := by
  intro params
  induction params with
  | nil =>
      intro acc m _ _ p hp
      simp at hp
  | cons q rest ih =>
      intro acc m hnd hok p hp
      simp only [List.map_cons, List.nodup_cons] at hnd
      rcases List.mem_cons.mp hp with hpq | hpr
      · subst hpq
        have hlast : ∀ acc2, validateGo rest kwargs acc2 = .ok m →
            pyDictGet m p.name = pyDictGet acc2 p.name :=
          fun acc2 h2 => validateGo_get_of_not_mem kwargs p.name rest acc2 m h2 hnd.1
        simp only [validateGo] at hok
        split at hok
        · next v2 heq =>
            split at hok
            · next hins =>
                refine ⟨fun v hv => ?_, fun hv _ => (by rw [heq] at hv; cases hv)⟩
                rw [heq] at hv
                cases hv
                left
                rw [hlast _ hok, pyDictGet_set_same]
            · next hins =>
                split at hok
                · next v3 hconv =>
                    refine ⟨fun v hv => ?_, fun hv _ => (by rw [heq] at hv; cases hv)⟩
                    rw [heq] at hv
                    cases hv
                    right
                    refine ⟨by simpa using hins, ?_⟩
                    rw [hlast _ hok, pyDictGet_set_same, hconv]
                · cases hok
        · next heq =>
            split at hok
            · split at hok
              · refine ⟨fun v hv => (by rw [heq] at hv; cases hv), fun _ _ => ?_⟩
                rw [hlast _ hok, pyDictGet_set_same]
              · cases hok
            · split at hok
              · refine ⟨fun v hv => (by rw [heq] at hv; cases hv), fun _ _ => ?_⟩
                rw [hlast _ hok, pyDictGet_set_same]
              · next hdef =>
                  exact ⟨fun v hv => (by rw [heq] at hv; cases hv),
                         fun _ hd => absurd hd hdef⟩
      · have : ∀ acc2, validateGo rest kwargs acc2 = .ok m →
            (∀ v, pyDictGet kwargs p.name = some v →
                pyDictGet m p.name = some v ∨
                  (pyIsInstance v p.type = false ∧
                   pyDictGet m p.name = pyConvert p.type v)) ∧
            (pyDictGet kwargs p.name = Option.none → p.default ≠ PyVal.none →
                pyDictGet m p.name = some p.default) :=
          fun acc2 h2 => ih acc2 m hnd.2 h2 p hpr
        simp only [validateGo] at hok
        split at hok
        · split at hok
          · exact this _ hok
          · split at hok
            · exact this _ hok
            · cases hok
        · split at hok
          · split at hok
            · exact this _ hok
            · cases hok
          · split at hok
            · exact this _ hok
            · exact this _ hok

theorem validateGo_error_of_missing (kwargs : List (String × PyVal)) :
    ∀ (params : List ToolParameter) (acc : List (String × PyVal)),
      (∃ p ∈ params, pyDictGet kwargs p.name = Option.none ∧ p.required = true ∧
        p.default = PyVal.none) →
      ∃ e, validateGo params kwargs acc = .error e := by
  intro params
  induction params with
  | nil =>
      intro acc h
      simp at h
  | cons q rest ih =>
      intro acc h
      obtain ⟨p, hp, hget, hreq, hdef⟩ := h
      rcases List.mem_cons.mp hp with hpq | hpr
      · subst hpq
        refine ⟨"Required parameter " ++ p.name ++ " is missing", ?_⟩
        simp [validateGo, hget, hreq, hdef]
      · have hrest : ∀ acc2, ∃ e, validateGo rest kwargs acc2 = .error e :=
          fun acc2 => ih acc2 ⟨p, hpr, hget, hreq, hdef⟩
        simp only [validateGo]
        cases hg : pyDictGet kwargs q.name with
        | some v =>
            by_cases hi : pyIsInstance v q.type
            · simpa [hi] using hrest _
            · cases hc : pyConvert q.type v with
              | some v2 => simpa [hi, hc] using hrest _
              | none =>
                  exact ⟨"Parameter " ++ q.name ++ " must be of type " ++ pyTypeName q.type,
                    by simp [hi, hc]⟩
        | none =>
            by_cases hr : q.required
            · by_cases hd : q.default = PyVal.none
              · exact ⟨"Required parameter " ++ q.name ++ " is missing", by simp [hr, hd]⟩
              · simpa [hr, hd] using hrest _
            · by_cases hd : q.default = PyVal.none
              · simpa [hr, hd] using hrest _
              · simpa [hr, hd] using hrest _

theorem validateGo_error_shape (kwargs : List (String × PyVal)) :
    ∀ (params : List ToolParameter) (acc : List (String × PyVal)) (e : String),
      validateGo params kwargs acc = .error e →
      validationErrorNames params kwargs e := by
  intro params
  induction params with
  | nil =>
      intro acc e h
      simp [validateGo] at h
  | cons q rest ih =>
      intro acc e h
      have step : ∀ acc2, validateGo rest kwargs acc2 = .error e →
          validationErrorNames (q :: rest) kwargs e := by
        intro acc2 h2
        refine (ih acc2 e h2).imp ?_ ?_
        · rintro ⟨r, hr, hrest⟩
          exact ⟨r, List.mem_cons_of_mem q hr, hrest⟩
        · rintro ⟨r, hr, hrest⟩
          exact ⟨r, List.mem_cons_of_mem q hr, hrest⟩
      simp only [validateGo] at h
      split at h
      · next v heq =>
          split at h
          · exact step _ h
          · next hins =>
              split at h
              · exact step _ h
              · next hc =>
                  left
                  exact ⟨q, List.mem_cons_self q rest,
                    ⟨v, heq, by simpa using hins, hc⟩, by cases h; rfl⟩
      · next heq =>
          split at h
          · next hreq =>
              split at h
              · exact step _ h
              · next hdef =>
                  right
                  refine ⟨q, List.mem_cons_self q rest, heq, by simpa using hreq, ?_,
                    by cases h; rfl⟩
                  by_contra hne
                  exact hdef hne
          · split at h
            · exact step _ h
            · exact step _ h

/-! ## C6: defaults only on absence; missing required fails with a name -/

/-- C6: `validate_parameters` applies a parameter default only when the
parameter is absent from the call — a supplied value is stored as given (or
converted), never replaced by the default — and every call missing a
required parameter without a default fails validation before the executor
runs; the resulting error message names an offending parameter, and a
missing-required failure names the missing one. -/
theorem validate_parameters_defaults_and_required
    (params : List ToolParameter) (kwargs : List (String × PyVal))
    (hnd : (params.map ToolParameter.name).Nodup) :
    (∀ m, validate_parameters params kwargs = .ok m →
      ∀ p ∈ params,
        (∀ v, pyDictGet kwargs p.name = some v →
            pyDictGet m p.name = some v ∨
              (pyIsInstance v p.type = false ∧
               pyDictGet m p.name = pyConvert p.type v)) ∧
        (pyDictGet kwargs p.name = Option.none → p.default ≠ PyVal.none →
            pyDictGet m p.name = some p.default)) ∧
    ((∃ p ∈ params, pyDictGet kwargs p.name = Option.none ∧ p.required = true ∧
        p.default = PyVal.none) →
      ∃ e, validate_parameters params kwargs = .error e) ∧
    (∀ e, validate_parameters params kwargs = .error e →
      validationErrorNames params kwargs e) :=
  ⟨fun m hok => validateGo_ok_mem kwargs params [] m hnd hok,
   fun h => validateGo_error_of_missing kwargs params [] h,
   fun e he => validateGo_error_shape kwargs params [] e he⟩

theorem validate_parameters_defaults_and_required_witness :
    (([⟨"text", .pstr, "the text to echo", true, .none⟩] :
        List ToolParameter).map ToolParameter.name).Nodup ∧
    ((∃ p ∈ ([⟨"text", .pstr, "the text to echo", true, .none⟩] : List ToolParameter),
        pyDictGet ([] : List (String × PyVal)) p.name = Option.none ∧
        p.required = true ∧ p.default = PyVal.none) →
      ∃ e, validate_parameters [⟨"text", .pstr, "the text to echo", true, .none⟩] [] =
        .error e) :=
  ⟨by decide,
   (validate_parameters_defaults_and_required
      [⟨"text", .pstr, "the text to echo", true, .none⟩] [] (by decide)).2.1⟩

/-! ## C5: sanitizing an integer-typed all-int enum -/

/-- C5: sanitizing the schema with `"type": "integer"` and `"enum": [1,2,3]`
promotes the type to `"number"`, adds `"multipleOf": 1` and converts the
enum values to their floating-point form; the resulting mapping holds
exactly the three claimed keys (Python dict equality ignores the entry
order, which in the code's output is type, enum, multipleOf). -/
theorem sanitize_integer_enum_eval :
    sanitize exIntegerEnum =
      .ok (.obj (.cons "type" (.jstr "number")
        (.cons "enum"
          (.arr (.cons (.jfloat 1) (.cons (.jfloat 2) (.cons (.jfloat 3) .nil))))
          (.cons "multipleOf" (.jint 1) .nil)))) := by
  rfl

/-! ## C4: the integer/number oneOf collapse never happens -/

/-- C4 (divergence witness): on the exact shape the collapse rule targets —
a `oneOf` with two branches typed `"integer"` and `"number"` — the code
walks the branches first, turning `"integer"` into `"number"`, so the
`set(types) == set(["integer", "number"])` test is false and no collapse
occurs: the output keeps both (now number-typed) branches instead of the
single merged `"number"` node the documentation describes. -/
theorem sanitize_oneOf_integer_number_no_collapse :
    sanitize exOneOfIntNum =
      .ok (.obj (.cons "oneOf"
        (.arr (.cons (.obj (.cons "type" (.jstr "number")
                        (.cons "multipleOf" (.jint 1) .nil)))
          (.cons (.obj (.cons "type" (.jstr "number") .nil)) .nil))) .nil)) ∧
    (Json.obj (.cons "oneOf"
        (.arr (.cons (.obj (.cons "type" (.jstr "number")
                        (.cons "multipleOf" (.jint 1) .nil)))
          (.cons (.obj (.cons "type" (.jstr "number") .nil)) .nil))) .nil)) ≠
      mergedNumberNode := by
  exact ⟨rfl, by decide⟩

/-! ## Sanitizer lemmas (towards C3) -/

theorem jsonObjInd {motive : JsonObj → Prop} (h0 : motive .nil)
    (h1 : ∀ k v tl, motive tl → motive (.cons k v tl)) : ∀ node, motive node
  | .nil => h0
  | .cons k v tl => h1 k v tl (jsonObjInd h0 h1 tl)

theorem jsonListInd {motive : JsonList → Prop} (h0 : motive .nil)
    (h1 : ∀ x tl, motive tl → motive (.cons x tl)) : ∀ xs, motive xs
  | .nil => h0
  | .cons x tl => h1 x tl (jsonListInd h0 h1 tl)

theorem walkObjEntries_cons (k : String) (v : Json) (tl : JsonObj) :
    walkObjEntries (.cons k v tl) =
      match walkEntryValue k v, walkObjEntries tl with
      | .ok v2, .ok tl2 => .ok (.cons k v2 tl2)
      | .error e, _ => .error e
      | _, .error e => .error e := by
  conv_lhs => rw [walkObjEntries.eq_def]
  simp only [walkEntryValue]

theorem walk_obj_eq (kvs : JsonObj) :
    walk (.obj kvs) = walkNodeCore (walkObjEntries kvs) := rfl

theorem walkJsonList_cons (x : Json) (tl : JsonList) :
    walkJsonList (.cons x tl) =
      match walk x, walkJsonList tl with
      | .ok y, .ok tl2 => .ok (.cons y tl2)
      | .error e, _ => .error e
      | _, .error e => .error e := rfl

theorem objGet_objSet_same (node : JsonObj) (k : String) (v : Json) :
    objGet (objSet node k v) k = some v := by
  induction node using jsonObjInd with
  | h0 => simp [objSet, objGet]
  | h1 k1 v1 tl ih => by_cases h : k1 = k <;> simp [objSet, objGet, h, ih]

theorem objGet_objSet_ne (node : JsonObj) (k k2 : String) (v : Json) (h : k ≠ k2) :
    objGet (objSet node k v) k2 = objGet node k2 := by
  induction node using jsonObjInd with
  | h0 => simp [objSet, objGet, h]
  | h1 k1 v1 tl ih =>
      by_cases h1k : k1 = k
      · subst h1k
        simp [objSet, objGet, h]
      · by_cases h2 : k1 = k2
        · subst h2
          simp [objSet, objGet, h1k]
        · simp [objSet, objGet, h1k, h2, ih]

theorem objHasKey_objSet_same (node : JsonObj) (k : String) (v : Json) :
    objHasKey (objSet node k v) k = true := by
  simp [objHasKey, objGet_objSet_same]

theorem objHasKey_objSet_ne (node : JsonObj) (k k2 : String) (v : Json) (h : k ≠ k2) :
    objHasKey (objSet node k v) k2 = objHasKey node k2 := by
  simp [objHasKey, objGet_objSet_ne _ _ _ _ h]

theorem objSet_self (node : JsonObj) (k : String) (v : Json)
    (h : objGet node k = some v) : objSet node k v = node := by
  induction node using jsonObjInd with
  | h0 => simp [objGet] at h
  | h1 k1 v1 tl ih =>
      by_cases h1 : k1 = k
      · simp only [objGet, if_pos h1] at h
        cases h
        simp [objSet, h1]
      · simp only [objGet, if_neg h1] at h
        simp [objSet, h1, ih h]

theorem ensureMultipleOf_objGet_ne (node : JsonObj) (k : String) (h : k ≠ "multipleOf") :
    objGet (ensureMultipleOf node) k = objGet node k := by
  unfold ensureMultipleOf
  by_cases hm : objHasKey node "multipleOf" <;>
    simp [hm, objGet_objSet_ne _ _ _ _ (Ne.symm h)]

theorem ensureMultipleOf_hasKey (node : JsonObj) :
    objHasKey (ensureMultipleOf node) "multipleOf" = true := by
  unfold ensureMultipleOf
  by_cases hm : objHasKey node "multipleOf" <;> simp [hm, objHasKey_objSet_same]

theorem ensureMultipleOf_hasKey_ne (node : JsonObj) (k : String) (h : k ≠ "multipleOf") :
    objHasKey (ensureMultipleOf node) k = objHasKey node k := by
  simp [objHasKey, ensureMultipleOf_objGet_ne node k h]

theorem ensureMultipleOf_id (node : JsonObj) (h : objHasKey node "multipleOf" = true) :
    ensureMultipleOf node = node := by
  simp [ensureMultipleOf, h]

theorem sanitizeTypeList_no_null (ts : JsonList) :
    anyStrEq (sanitizeTypeList ts) "null" = false := by
  induction ts using jsonListInd with
  | h0 => simp [sanitizeTypeList, anyStrEq]
  | h1 x tl ih =>
      by_cases hn : isStrEq x "null" = true
      · simp [sanitizeTypeList, hn, ih]
      · by_cases hi : isStrEq x "integer" = true
        · simp [sanitizeTypeList, hn, hi, anyStrEq, ih,
            show isStrEq (.jstr "number") "null" = false from rfl]
        · simp [sanitizeTypeList, hn, hi, anyStrEq, ih]

theorem sanitizeTypeList_no_integer (ts : JsonList) :
    anyStrEq (sanitizeTypeList ts) "integer" = false := by
  induction ts using jsonListInd with
  | h0 => simp [sanitizeTypeList, anyStrEq]
  | h1 x tl ih =>
      by_cases hn : isStrEq x "null" = true
      · simp [sanitizeTypeList, hn, ih]
      · by_cases hi : isStrEq x "integer" = true
        · simp [sanitizeTypeList, hn, hi, anyStrEq, ih,
            show isStrEq (.jstr "number") "integer" = false from rfl]
        · simp [sanitizeTypeList, hn, hi, anyStrEq, ih]

theorem sanitizeTypeList_allStr (ts : JsonList) (h : allStrJson ts = true) :
    allStrJson (sanitizeTypeList ts) = true := by
  induction ts using jsonListInd with
  | h0 => simp [sanitizeTypeList, allStrJson]
  | h1 x tl ih =>
      simp only [allStrJson, Bool.and_eq_true] at h
      by_cases hn : isStrEq x "null" = true
      · simp [sanitizeTypeList, hn, ih h.2]
      · by_cases hi : isStrEq x "integer" = true
        · simp [sanitizeTypeList, hn, hi, allStrJson, ih h.2,
            show jIsStr (.jstr "number") = true from rfl]
        · simp [sanitizeTypeList, hn, hi, allStrJson, ih h.2, h.1]

theorem sanitizeTypeList_nil_no_integer (ts : JsonList)
    (h : sanitizeTypeList ts = .nil) : anyStrEq ts "integer" = false := by
  induction ts using jsonListInd with
  | h0 => simp [anyStrEq]
  | h1 x tl ih =>
      by_cases hn : isStrEq x "null" = true
      · simp only [sanitizeTypeList, if_pos hn] at h
        have hxi : isStrEq x "integer" = false := by
          cases x <;> simp_all [isStrEq]
        simp [anyStrEq, hxi, ih h]
      · simp [sanitizeTypeList, hn] at h

theorem sanitizeTypeList_id (ts : JsonList)
    (hn : anyStrEq ts "null" = false) (hi : anyStrEq ts "integer" = false) :
    sanitizeTypeList ts = ts := by
  induction ts using jsonListInd with
  | h0 => simp [sanitizeTypeList]
  | h1 x tl ih =>
      simp only [anyStrEq, Bool.or_eq_false_iff] at hn hi
      simp [sanitizeTypeList, hn.1, hi.1, ih hn.2 hi.2]

theorem walkEntryValue_plain (k : String) (v : Json)
    (hr : isRecKey k = false) (hu : isUnionKey k = false) :
    walkEntryValue k v = .ok v := by
  simp [walkEntryValue, hr, hu]

theorem walkObjEntries_objGet_preserved :
    ∀ (kvs w : JsonObj), walkObjEntries kvs = .ok w →
      ∀ k, isRecKey k = false → isUnionKey k = false →
        objGet w k = objGet kvs k := by
  intro kvs
  induction kvs using jsonObjInd with
  | h0 =>
      intro w h k _ _
      simp only [walkObjEntries] at h
      cases h
      rfl
  | h1 k1 v tl ih =>
      intro w h k hr hu
      rw [walkObjEntries_cons] at h
      cases hev : walkEntryValue k1 v with
      | error e => rw [hev] at h; simp at h
      | ok v2 =>
          cases htl : walkObjEntries tl with
          | error e => rw [hev, htl] at h; simp at h
          | ok tl2 =>
              rw [hev, htl] at h
              simp only [] at h
              cases h
              by_cases hk : k1 = k
              · subst hk
                have : walkEntryValue k1 v = .ok v := walkEntryValue_plain k1 v hr hu
                rw [this] at hev
                cases hev
                simp [objGet]
              · simp [objGet, hk, ih tl2 htl k hr hu]

theorem walkObjEntries_hasKey_preserved :
    ∀ (kvs w : JsonObj), walkObjEntries kvs = .ok w →
      ∀ k, objHasKey w k = objHasKey kvs k := by
  intro kvs
  induction kvs using jsonObjInd with
  | h0 =>
      intro w h k
      simp only [walkObjEntries] at h
      cases h
      rfl
  | h1 k1 v tl ih =>
      intro w h k
      rw [walkObjEntries_cons] at h
      cases hev : walkEntryValue k1 v with
      | error e => rw [hev] at h; simp at h
      | ok v2 =>
          cases htl : walkObjEntries tl with
          | error e => rw [hev, htl] at h; simp at h
          | ok tl2 =>
              rw [hev, htl] at h
              simp only [] at h
              cases h
              by_cases hk : k1 = k
              · subst hk
                simp [objHasKey, objGet]
              · simp only [objHasKey, objGet, if_neg hk]
                simpa [objHasKey] using ih tl2 htl k

theorem shapedObj_parts (k : String) (v : Json) (tl : JsonObj)
    (h : schemaShapedObj (.cons k v tl) = true) :
    (k = "type" → typeFieldOK v = true) ∧
    (isRecKey k = true ∨ isUnionKey k = true → schemaShaped v = true) ∧
    schemaShapedObj tl = true := by
  simp only [schemaShapedObj, Bool.and_eq_true] at h
  obtain ⟨⟨h1, h2⟩, h3⟩ := h
  refine ⟨fun hk => ?_, fun hk => ?_, h3⟩
  · rw [if_pos hk] at h1
    exact h1
  · have : (isRecKey k || isUnionKey k) = true := by
      rcases hk with hk | hk <;> simp [hk]
    rw [if_pos this] at h2
    exact h2

theorem shapedObj_typeFieldOK :
    ∀ (kvs : JsonObj), schemaShapedObj kvs = true →
      ∀ v, objGet kvs "type" = some v → typeFieldOK v = true := by
  intro kvs
  induction kvs using jsonObjInd with
  | h0 =>
      intro _ v h
      simp [objGet] at h
  | h1 k1 v1 tl ih =>
      intro h v hget
      obtain ⟨h1, -, h3⟩ := shapedObj_parts k1 v1 tl h
      by_cases hk : k1 = "type"
      · rw [objGet, if_pos hk] at hget
        cases hget
        exact h1 hk
      · rw [objGet, if_neg hk] at hget
        exact ih h3 v hget

theorem applyTypeRule_shape (node : JsonObj) :
    applyTypeRule node = node ∨
    (∃ x, applyTypeRule node = objSet node "type" x) ∨
    (∃ x, applyTypeRule node = ensureMultipleOf (objSet node "type" x)) := by
  unfold applyTypeRule
  split
  · split
    · exact Or.inr (Or.inr ⟨_, rfl⟩)
    · exact Or.inl rfl
  · unfold applyTypeRuleArr applyTypeRuleArr2
    split
    · exact Or.inr (Or.inr ⟨_, rfl⟩)
    · exact Or.inr (Or.inl ⟨_, rfl⟩)
  · exact Or.inl rfl

theorem applyEnumRulePromote_shape (node1 : JsonObj) :
    applyEnumRulePromote node1 = node1 ∨
    applyEnumRulePromote node1 = ensureMultipleOf (objSet node1 "type" (.jstr "number")) := by
  unfold applyEnumRulePromote
  split
  · exact Or.inr rfl
  · exact Or.inl rfl

theorem applyEnumRule_shape (node : JsonObj) :
    applyEnumRule node = node ∨
    (∃ l, applyEnumRule node = objSet node "enum" (.arr l)) ∨
    (∃ l, applyEnumRule node =
      ensureMultipleOf (objSet (objSet node "enum" (.arr l)) "type" (.jstr "number"))) := by
  unfold applyEnumRule
  split
  · split
    · unfold applyEnumRuleFire
      rcases applyEnumRulePromote_shape (objSet node "enum" (.arr (mapFloat _))) with h | h
      · rw [h]
        exact Or.inr (Or.inl ⟨_, rfl⟩)
      · rw [h]
        exact Or.inr (Or.inr ⟨_, rfl⟩)
    · exact Or.inl rfl
  · exact Or.inl rfl

theorem jIntLike_jFloatOf (v : Json) (h : jIntLike v = true) :
    jIntLike (jFloatOf v) = false := by
  cases v <;> simp_all [jIntLike, jFloatOf]

theorem allIntLike_mapFloat_false (v : Json) (vs : JsonList)
    (h : allIntLike (.cons v vs) = true) :
    allIntLike (mapFloat (.cons v vs)) = false := by
  simp only [allIntLike, Bool.and_eq_true] at h
  simp [mapFloat, allIntLike, jIntLike_jFloatOf v h.1]

theorem TypeDone_not_integer (node : JsonObj) (hT : TypeDone node) :
    objGet node "type" ≠ some (.jstr "integer") := by
  intro h
  unfold TypeDone at hT
  rw [h] at hT
  exact hT rfl

theorem applyTypeRule_objGet (node : JsonObj) (k : String)
    (h1 : k ≠ "type") (h2 : k ≠ "multipleOf") :
    objGet (applyTypeRule node) k = objGet node k := by
  rcases applyTypeRule_shape node with h | ⟨x, h⟩ | ⟨x, h⟩ <;> rw [h]
  · rw [objGet_objSet_ne _ _ _ _ (Ne.symm h1)]
  · rw [ensureMultipleOf_objGet_ne _ _ h2, objGet_objSet_ne _ _ _ _ (Ne.symm h1)]

theorem applyEnumRule_objGet (node : JsonObj) (k : String)
    (h0 : k ≠ "enum") (h1 : k ≠ "type") (h2 : k ≠ "multipleOf") :
    objGet (applyEnumRule node) k = objGet node k := by
  rcases applyEnumRule_shape node with h | ⟨l, h⟩ | ⟨l, h⟩ <;> rw [h]
  · rw [objGet_objSet_ne _ _ _ _ (Ne.symm h0)]
  · rw [ensureMultipleOf_objGet_ne _ _ h2, objGet_objSet_ne _ _ _ _ (Ne.symm h1),
      objGet_objSet_ne _ _ _ _ (Ne.symm h0)]

theorem applyEnumRule_no_promote (node : JsonObj)
    (hT : objGet node "type" ≠ some (.jstr "integer")) :
    applyEnumRule node = node ∨
    ∃ l, applyEnumRule node = objSet node "enum" (.arr l) := by
  unfold applyEnumRule
  split
  · next v2 vs hget =>
      split
      · unfold applyEnumRuleFire applyEnumRulePromote
        have hne : isStrEqOpt
            (objGet (objSet node "enum" (.arr (mapFloat (.cons v2 vs)))) "type")
            "integer" = false := by
          rw [objGet_objSet_ne _ _ _ _ (by decide)]
          cases hty : objGet node "type" with
          | none => rfl
          | some tv =>
              cases tv with
              | jstr t =>
                  have : t ≠ "integer" := by
                    intro he
                    subst he
                    exact hT hty
                  simp [isStrEqOpt, isStrEq, this]
              | null => rfl
              | jbool b => rfl
              | jint n => rfl
              | jfloat n => rfl
              | arr l => rfl
              | obj kvs2 => rfl
        rw [if_neg (by simp [hne])]
        exact Or.inr ⟨_, rfl⟩
      · exact Or.inl rfl
  · exact Or.inl rfl

theorem TypeDone_objSet_enum (node : JsonObj) (x : Json) (hT : TypeDone node) :
    TypeDone (objSet node "enum" x) := by
  unfold TypeDone at *
  rw [objGet_objSet_ne _ _ _ _ (by decide)]
  cases hget : objGet node "type" with
  | none => trivial
  | some tv =>
      rw [hget] at hT
      cases tv with
      | jstr t => exact hT
      | arr ts =>
          obtain ⟨a, b, c, d, e⟩ := hT
          exact ⟨a, b, c, d, fun hn =>
            by rw [objHasKey_objSet_ne _ _ _ _ (by decide)]; exact e hn⟩
      | null => trivial
      | jbool b => trivial
      | jint n => trivial
      | jfloat n => trivial
      | obj kvs2 => trivial

theorem TypeDone_applyEnumRule (node : JsonObj) (hT : TypeDone node) :
    TypeDone (applyEnumRule node) := by
  rcases applyEnumRule_no_promote node (TypeDone_not_integer node hT) with h | ⟨l, h⟩
  · rw [h]
    exact hT
  · rw [h]
    exact TypeDone_objSet_enum node _ hT

theorem EnumDone_applyEnumRule (node : JsonObj) : EnumDone (applyEnumRule node) := by
  unfold applyEnumRule
  split
  · next v2 vs hget =>
      split
      · next hall =>
          unfold applyEnumRuleFire
          rcases applyEnumRulePromote_shape
              (objSet node "enum" (.arr (mapFloat (.cons v2 vs)))) with h | h <;> rw [h]
          · unfold EnumDone
            rw [objGet_objSet_same]
            simp only [mapFloat]
            exact allIntLike_mapFloat_false v2 vs hall
          · unfold EnumDone
            rw [ensureMultipleOf_objGet_ne _ _ (by decide),
              objGet_objSet_ne _ _ _ _ (by decide), objGet_objSet_same]
            simp only [mapFloat]
            exact allIntLike_mapFloat_false v2 vs hall
      · next hall =>
          unfold EnumDone
          rw [hget]
          simpa using hall
  · next hmiss =>
      unfold EnumDone
      cases hget : objGet node "enum" with
      | none => trivial
      | some v =>
          cases v with
          | arr xs =>
              cases xs with
              | nil => trivial
              | cons a tl => exact absurd hget (by exact fun hh => hmiss a tl hh)
          | null => trivial
          | jbool b => trivial
          | jint n => trivial
          | jfloat n => trivial
          | jstr s => trivial
          | obj kvs2 => trivial

theorem applyEnumRule_id (node : JsonObj) (hE : EnumDone node) :
    applyEnumRule node = node := by
  unfold applyEnumRule
  split
  · next v vs hget =>
      unfold EnumDone at hE
      rw [hget] at hE
      simp [hE]
  · rfl

theorem applyTypeRuleArr_typeDone (node : JsonObj) (ts : JsonList)
    (hall : allStrJson ts = true) : TypeDone (applyTypeRuleArr node ts) := by
  unfold applyTypeRuleArr applyTypeRuleArr2
  cases hst : sanitizeTypeList ts with
  | nil =>
      have hni : anyStrEq ts "integer" = false := sanitizeTypeList_nil_no_integer ts hst
      have hcond : (anyStrEq ts "integer" ||
          anyStrEq (withObjectDefault .nil) "number") = false := by
        simp [hni, withObjectDefault, anyStrEq, isStrEq]
      rw [if_neg (by simp [hcond])]
      unfold TypeDone
      rw [show scalarOrList (withObjectDefault .nil) = .jstr "object" from rfl,
        objGet_objSet_same]
      simp
  | cons x tl =>
      have hsall : allStrJson (.cons x tl) = true := hst ▸ sanitizeTypeList_allStr ts hall
      have hsni : anyStrEq (.cons x tl) "integer" = false :=
        hst ▸ sanitizeTypeList_no_integer ts
      have hsnn : anyStrEq (.cons x tl) "null" = false :=
        hst ▸ sanitizeTypeList_no_null ts
      cases tl with
      | nil =>
          simp only [allStrJson, Bool.and_eq_true] at hsall
          have hx : jIsStr x = true := hsall.1
          simp only [anyStrEq, Bool.or_eq_false_iff] at hsni
          cases x with
          | jstr s =>
              have hs : s ≠ "integer" := by
                have := hsni.1
                simp [isStrEq] at this
                exact this
              have hscl : scalarOrList (withObjectDefault (.cons (.jstr s) .nil)) =
                  .jstr s := rfl
              by_cases hcond : (anyStrEq ts "integer" ||
                  anyStrEq (withObjectDefault (.cons (.jstr s) .nil)) "number") = true
              · rw [if_pos (by simp [hcond])]
                unfold TypeDone
                rw [ensureMultipleOf_objGet_ne _ _ (by decide), hscl, objGet_objSet_same]
                exact hs
              · rw [if_neg (by simpa using hcond)]
                unfold TypeDone
                rw [hscl, objGet_objSet_same]
                exact hs
          | null => simp [jIsStr] at hx
          | jbool b => simp [jIsStr] at hx
          | jint n => simp [jIsStr] at hx
          | jfloat n => simp [jIsStr] at hx
          | arr l => simp [jIsStr] at hx
          | obj kvs2 => simp [jIsStr] at hx
      | cons y tl2 =>
          have hw : withObjectDefault (.cons x (.cons y tl2)) = .cons x (.cons y tl2) := rfl
          have hscl : scalarOrList (.cons x (.cons y tl2)) = .arr (.cons x (.cons y tl2)) := rfl
          have hlen : 2 ≤ jlLength (.cons x (.cons y tl2)) := by
            simp [jlLength]
          by_cases hcond : (anyStrEq ts "integer" ||
              anyStrEq (withObjectDefault (.cons x (.cons y tl2))) "number") = true
          · rw [if_pos (by simp [hcond])]
            unfold TypeDone
            rw [hw, ensureMultipleOf_objGet_ne _ _ (by decide), hscl, objGet_objSet_same]
            exact ⟨hsall, hsnn, hsni, hlen, fun _ => ensureMultipleOf_hasKey _⟩
          · rw [if_neg (by simpa using hcond)]
            unfold TypeDone
            rw [hw, hscl, objGet_objSet_same]
            refine ⟨hsall, hsnn, hsni, hlen, fun hnum => ?_⟩
            rw [hw] at hcond
            simp only [Bool.or_eq_true, not_or] at hcond
            exact absurd hnum (by simpa using hcond.2)

theorem applyTypeRule_typeDone (node : JsonObj)
    (hok : ∀ v, objGet node "type" = some v → typeFieldOK v = true) :
    TypeDone (applyTypeRule node) := by
  unfold applyTypeRule
  split
  · next t hget =>
      split
      · next ht =>
          unfold TypeDone
          rw [ensureMultipleOf_objGet_ne _ _ (by decide), objGet_objSet_same]
          simp
      · next ht =>
          unfold TypeDone
          rw [hget]
          exact ht
  · next ts hget =>
      exact applyTypeRuleArr_typeDone node ts (by simpa [typeFieldOK] using hok _ hget)
  · next hm1 hm2 =>
      unfold TypeDone
      cases hget : objGet node "type" with
      | none => trivial
      | some tv =>
          cases tv with
          | jstr t => exact absurd hget (by exact fun hh => hm1 t hh)
          | arr ts => exact absurd hget (by exact fun hh => hm2 ts hh)
          | null => trivial
          | jbool b => trivial
          | jint n => trivial
          | jfloat n => trivial
          | obj kvs2 => trivial

theorem applyTypeRule_id (node : JsonObj) (hT : TypeDone node) :
    applyTypeRule node = node := by
  unfold applyTypeRule
  split
  · next t hget =>
      unfold TypeDone at hT
      rw [hget] at hT
      rw [if_neg hT]
  · next ts hget =>
      unfold TypeDone at hT
      rw [hget] at hT
      obtain ⟨hall, hnn, hni, hlen, hmul⟩ := hT
      unfold applyTypeRuleArr applyTypeRuleArr2
      rw [sanitizeTypeList_id ts hnn hni]
      cases ts with
      | nil => simp [jlLength] at hlen
      | cons a tl1 =>
          cases tl1 with
          | nil => simp [jlLength] at hlen
          | cons b tl2 =>
              have hw : withObjectDefault (.cons a (.cons b tl2)) =
                  .cons a (.cons b tl2) := rfl
              have hscl : scalarOrList (.cons a (.cons b tl2)) =
                  .arr (.cons a (.cons b tl2)) := rfl
              rw [hw]
              by_cases hnum : anyStrEq (.cons a (.cons b tl2)) "number" = true
              · rw [if_pos (by simp [hnum])]
                rw [hscl, objSet_self node _ _ hget,
                  ensureMultipleOf_id node (hmul hnum)]
              · rw [if_neg (by simp [hni, hnum])]
                rw [hscl, objSet_self node _ _ hget]
  · rfl

theorem ensureMultipleOf_cases (node : JsonObj) :
    ensureMultipleOf node = node ∨
    ensureMultipleOf node = objSet node "multipleOf" (.jint 1) := by
  unfold ensureMultipleOf
  split
  · exact Or.inl rfl
  · exact Or.inr rfl

theorem EntriesStable_nil : EntriesStable .nil := by
  unfold EntriesStable
  simp only [walkObjEntries]

theorem EntriesStable_cons_inv (k : String) (v : Json) (tl : JsonObj)
    (h : EntriesStable (.cons k v tl)) :
    walkEntryValue k v = .ok v ∧ EntriesStable tl := by
  unfold EntriesStable at h
  rw [walkObjEntries_cons] at h
  cases hev : walkEntryValue k v with
  | error e => rw [hev] at h; simp at h
  | ok v2 =>
      cases htl : walkObjEntries tl with
      | error e => rw [hev, htl] at h; simp at h
      | ok tl2 =>
          rw [hev, htl] at h
          simp only [Except.ok.injEq, JsonObj.cons.injEq] at h
          obtain ⟨-, hv2, htl2⟩ := h
          subst hv2
          subst htl2
          exact ⟨rfl, htl⟩

theorem EntriesStable_cons (k : String) (v : Json) (tl : JsonObj)
    (hv : walkEntryValue k v = .ok v) (htl : EntriesStable tl) :
    EntriesStable (.cons k v tl) := by
  unfold EntriesStable at *
  rw [walkObjEntries_cons, hv, htl]

theorem EntriesStable_objSet (k : String) (x : Json)
    (hr : isRecKey k = false) (hu : isUnionKey k = false) :
    ∀ node, EntriesStable node → EntriesStable (objSet node k x) := by
  intro node
  induction node using jsonObjInd with
  | h0 =>
      intro _
      rw [show objSet .nil k x = .cons k x .nil from rfl]
      exact EntriesStable_cons k x .nil (walkEntryValue_plain k x hr hu) EntriesStable_nil
  | h1 k1 v1 tl ih =>
      intro h
      obtain ⟨hv1, htl⟩ := EntriesStable_cons_inv k1 v1 tl h
      by_cases hk : k1 = k
      · subst hk
        rw [show objSet (.cons k1 v1 tl) k1 x = .cons k1 x tl from by simp [objSet]]
        exact EntriesStable_cons k1 x tl (walkEntryValue_plain k1 x hr hu) htl
      · rw [show objSet (.cons k1 v1 tl) k x = .cons k1 v1 (objSet tl k x) from by
          simp [objSet, hk]]
        exact EntriesStable_cons k1 v1 _ hv1 (ih htl)

theorem EntriesStable_ensure (node : JsonObj) (h : EntriesStable node) :
    EntriesStable (ensureMultipleOf node) := by
  rcases ensureMultipleOf_cases node with he | he <;> rw [he]
  · exact h
  · exact EntriesStable_objSet _ _ (by decide) (by decide) node h

theorem EntriesStable_applyTypeRule (node : JsonObj) (h : EntriesStable node) :
    EntriesStable (applyTypeRule node) := by
  rcases applyTypeRule_shape node with he | ⟨x, he⟩ | ⟨x, he⟩ <;> rw [he]
  · exact h
  · exact EntriesStable_objSet _ _ (by decide) (by decide) node h
  · exact EntriesStable_ensure _ (EntriesStable_objSet _ _ (by decide) (by decide) node h)

theorem EntriesStable_applyEnumRule (node : JsonObj) (h : EntriesStable node) :
    EntriesStable (applyEnumRule node) := by
  rcases applyEnumRule_shape node with he | ⟨l, he⟩ | ⟨l, he⟩ <;> rw [he]
  · exact h
  · exact EntriesStable_objSet _ _ (by decide) (by decide) node h
  · exact EntriesStable_ensure _ (EntriesStable_objSet _ _ (by decide) (by decide) _
      (EntriesStable_objSet _ _ (by decide) (by decide) node h))

theorem NoMergeObj_objSet (k : String) (x : Json) (hm : isMergeKey k = false) :
    ∀ node, NoMergeObj node → NoMergeObj (objSet node k x) := by
  intro node
  induction node using jsonObjInd with
  | h0 =>
      intro _
      rw [show objSet .nil k x = .cons k x .nil from rfl]
      exact ⟨fun hmk => absurd hmk (by simp [hm]), trivial⟩
  | h1 k1 v1 tl ih =>
      intro h
      obtain ⟨hf, htl⟩ := h
      by_cases hk : k1 = k
      · subst hk
        rw [show objSet (.cons k1 v1 tl) k1 x = .cons k1 x tl from by simp [objSet]]
        exact ⟨fun hmk => absurd hmk (by simp [hm]), htl⟩
      · rw [show objSet (.cons k1 v1 tl) k x = .cons k1 v1 (objSet tl k x) from by
          simp [objSet, hk]]
        exact ⟨hf, ih htl⟩

theorem NoMergeObj_ensure (node : JsonObj) (h : NoMergeObj node) :
    NoMergeObj (ensureMultipleOf node) := by
  rcases ensureMultipleOf_cases node with he | he <;> rw [he]
  · exact h
  · exact NoMergeObj_objSet _ _ (by decide) node h

theorem NoMergeObj_applyTypeRule (node : JsonObj) (h : NoMergeObj node) :
    NoMergeObj (applyTypeRule node) := by
  rcases applyTypeRule_shape node with he | ⟨x, he⟩ | ⟨x, he⟩ <;> rw [he]
  · exact h
  · exact NoMergeObj_objSet _ _ (by decide) node h
  · exact NoMergeObj_ensure _ (NoMergeObj_objSet _ _ (by decide) node h)

theorem NoMergeObj_applyEnumRule (node : JsonObj) (h : NoMergeObj node) :
    NoMergeObj (applyEnumRule node) := by
  rcases applyEnumRule_shape node with he | ⟨l, he⟩ | ⟨l, he⟩ <;> rw [he]
  · exact h
  · exact NoMergeObj_objSet _ _ (by decide) node h
  · exact NoMergeObj_ensure _ (NoMergeObj_objSet _ _ (by decide) _
      (NoMergeObj_objSet _ _ (by decide) node h))

theorem getD_type_not_integer (m : JsonObj)
    (h : objGet m "type" ≠ some (.jstr "integer")) :
    isStrEq ((objGet m "type").getD .null) "integer" = false := by
  cases hg : objGet m "type" with
  | none => rfl
  | some v =>
      cases v with
      | jstr t =>
          have ht : t ≠ "integer" := by
            intro he
            subst he
            exact h hg
          simp [isStrEq, ht]
      | null => rfl
      | jbool b => rfl
      | jint n => rfl
      | jfloat n => rfl
      | arr l => rfl
      | obj kvs2 => rfl

theorem mergeCheck_not_true (a b : Json) (ha : OutTypeOK a) (hb : OutTypeOK b) :
    mergeCheck a b ≠ .ok true := by
  cases a with
  | obj ma =>
      cases b with
      | obj mb =>
          intro h
          unfold mergeCheck at h
          split at h
          · rename_i ma2 mb2 heq1 heq2
            cases heq1
            cases heq2
            split at h
            · simp only [Except.ok.injEq] at h
              rw [getD_type_not_integer ma (ha ma rfl),
                getD_type_not_integer mb (hb mb rfl)] at h
              simp at h
            · simp at h
          · rename_i himp
            exact himp ma mb rfl rfl
      | null => intro h; unfold mergeCheck at h; simp at h
      | jbool b2 => intro h; unfold mergeCheck at h; simp at h
      | jint n => intro h; unfold mergeCheck at h; simp at h
      | jfloat n => intro h; unfold mergeCheck at h; simp at h
      | jstr s => intro h; unfold mergeCheck at h; simp at h
      | arr l => intro h; unfold mergeCheck at h; simp at h
  | null => intro h; unfold mergeCheck at h; simp at h
  | jbool b2 => intro h; unfold mergeCheck at h; simp at h
  | jint n => intro h; unfold mergeCheck at h; simp at h
  | jfloat n => intro h; unfold mergeCheck at h; simp at h
  | jstr s => intro h; unfold mergeCheck at h; simp at h
  | arr l => intro h; unfold mergeCheck at h; simp at h

theorem mergeScanGo_noMerge :
    ∀ (entries : JsonObj), NoMergeObj entries →
      ∀ (node out : JsonObj), mergeScanGo entries node = .ok out → out = node := by
  intro entries
  induction entries using jsonObjInd with
  | h0 =>
      intro _ node out h
      unfold mergeScanGo at h
      cases h
      rfl
  | h1 k v tl ih =>
      intro hnm node out h
      obtain ⟨hf, htl⟩ := hnm
      unfold mergeScanGo at h
      by_cases hmk : isMergeKey k = true
      · rw [if_pos hmk] at h
        split at h
        · next a b =>
            cases hchk : mergeCheck a b with
            | error e => rw [hchk] at h; simp at h
            | ok bo =>
                cases bo with
                | true => exact absurd hchk (hf hmk a b rfl)
                | false =>
                    rw [hchk] at h
                    simp only [] at h
                    exact ih htl node out h
        · exact ih htl node out h
      · rw [if_neg hmk] at h
        exact ih htl node out h

theorem mergeScan_noMerge (node out : JsonObj) (hnm : NoMergeObj node)
    (h : mergeScan node = .ok out) : out = node :=
  mergeScanGo_noMerge node hnm node out h

theorem mergeKey_to_unionKey (k : String) (h : isMergeKey k = true) :
    isUnionKey k = true := by
  simp only [isMergeKey, Bool.or_eq_true, decide_eq_true_eq] at h
  rcases h with h | h <;> subst h <;> decide

theorem mergeKey_not_recKey (k : String) (h : isMergeKey k = true) :
    isRecKey k = false := by
  simp only [isMergeKey, Bool.or_eq_true, decide_eq_true_eq] at h
  rcases h with h | h <;> subst h <;> decide

theorem walkNodeCore_inv (r : Except String JsonObj) (y : Json)
    (h : walkNodeCore r = .ok y) :
    ∃ w r2, r = .ok w ∧ mergeScan (applyEnumRule (applyTypeRule w)) = .ok r2 ∧
      y = .obj r2 := by
  cases r with
  | error e => simp [walkNodeCore] at h
  | ok w =>
      cases hm : mergeScan (applyEnumRule (applyTypeRule w)) with
      | error e =>
          unfold walkNodeCore at h
          simp only [] at h
          rw [hm] at h
          simp at h
      | ok r2 =>
          unfold walkNodeCore at h
          simp only [] at h
          rw [hm] at h
          simp only [Except.ok.injEq] at h
          exact ⟨w, r2, rfl, hm, h.symm⟩

theorem walkEntryValue_obj_rec (k : String) (kvs : JsonObj) (hr : isRecKey k = true) :
    walkEntryValue k (.obj kvs) = walk (.obj kvs) := by
  unfold walkEntryValue
  rw [if_pos hr]
  rfl

theorem walkEntryValue_arr_rec (k : String) (xs : JsonList) (hr : isRecKey k = true) :
    walkEntryValue k (.arr xs) =
      match walkJsonList xs with
      | .ok ys => .ok (.arr ys)
      | .error e => .error e := by
  unfold walkEntryValue
  rw [if_pos hr]

theorem walkEntryValue_arr_union (k : String) (xs : JsonList)
    (hr : ¬ isRecKey k = true) (hu : isUnionKey k = true) :
    walkEntryValue k (.arr xs) =
      match walkJsonList xs with
      | .ok ys => .ok (.arr ys)
      | .error e => .error e := by
  unfold walkEntryValue
  rw [if_neg hr, if_pos hu]

theorem walkEntryValue_rec_other (k : String) (v : Json) (hr : isRecKey k = true)
    (h1 : ∀ kvs, v ≠ .obj kvs) (h2 : ∀ xs, v ≠ .arr xs) :
    walkEntryValue k v = .ok v := by
  unfold walkEntryValue
  rw [if_pos hr]
  cases v with
  | obj kvs => exact absurd rfl (h1 kvs)
  | arr xs => exact absurd rfl (h2 xs)
  | null => rfl
  | jbool b => rfl
  | jint n => rfl
  | jfloat n => rfl
  | jstr s => rfl

theorem walkEntryValue_union_other (k : String) (v : Json)
    (hr : ¬ isRecKey k = true) (hu : isUnionKey k = true)
    (h2 : ∀ xs, v ≠ .arr xs) :
    walkEntryValue k v = .ok v := by
  unfold walkEntryValue
  rw [if_neg hr, if_pos hu]
  cases v with
  | arr xs => exact absurd rfl (h2 xs)
  | obj kvs => rfl
  | null => rfl
  | jbool b => rfl
  | jint n => rfl
  | jfloat n => rfl
  | jstr s => rfl

theorem walk_obj_idem (kvs : JsonObj)
    (hshape : schemaShapedObj kvs = true) (hobj : WalkIdemObj kvs) :
    ∀ y, walk (.obj kvs) = .ok y → walk y = .ok y ∧ OutTypeOK y := by
  intro y hy
  rw [walk_obj_eq] at hy
  obtain ⟨w, r2, hw, hm, hyeq⟩ := walkNodeCore_inv _ _ hy
  obtain ⟨hstable, hnomerge⟩ := hobj hshape w hw
  have hnm2 : NoMergeObj (applyEnumRule (applyTypeRule w)) :=
    NoMergeObj_applyEnumRule _ (NoMergeObj_applyTypeRule _ hnomerge)
  have hr2 : r2 = applyEnumRule (applyTypeRule w) := mergeScan_noMerge _ _ hnm2 hm
  subst hyeq
  subst hr2
  have htok : ∀ v, objGet w "type" = some v → typeFieldOK v = true := by
    intro v hv
    rw [walkObjEntries_objGet_preserved kvs w hw "type" (by decide) (by decide)] at hv
    exact shapedObj_typeFieldOK kvs hshape v hv
  have hT2 : TypeDone (applyEnumRule (applyTypeRule w)) :=
    TypeDone_applyEnumRule _ (applyTypeRule_typeDone w htok)
  have hE2 : EnumDone (applyEnumRule (applyTypeRule w)) :=
    EnumDone_applyEnumRule (applyTypeRule w)
  constructor
  · rw [walk_obj_eq]
    have hs2 : EntriesStable (applyEnumRule (applyTypeRule w)) :=
      EntriesStable_applyEnumRule _ (EntriesStable_applyTypeRule _ hstable)
    unfold EntriesStable at hs2
    rw [hs2]
    unfold walkNodeCore
    simp only []
    rw [applyTypeRule_id _ hT2, applyEnumRule_id _ hE2, hm]
  · intro m hmeq
    cases hmeq
    exact TypeDone_not_integer _ hT2

theorem walkIdemJson_of_scalar (x : Json) (hx : walk x = .ok x)
    (hno : ∀ m, x ≠ Json.obj m) (hna : ∀ xs, x ≠ Json.arr xs) : WalkIdemJson x := by
  intro _
  constructor
  · intro y hy
    rw [hx] at hy
    simp only [Except.ok.injEq] at hy
    subst hy
    exact ⟨hx, fun m hm => absurd hm (hno m)⟩
  · intro xs ys hxs
    exact absurd hxs (hna xs)

theorem walkIdemJson_arr (xs : JsonList) (ih : WalkIdemList xs) :
    WalkIdemJson (.arr xs) := by
  intro hshape
  have hsl : schemaShapedList xs = true := by simpa [schemaShaped] using hshape
  constructor
  · intro y hy
    have hx : walk (.arr xs) = .ok (.arr xs) := rfl
    rw [hx] at hy
    simp only [Except.ok.injEq] at hy
    subst hy
    exact ⟨hx, fun m hm => Json.noConfusion hm⟩
  · intro xs2 ys harr hys
    cases harr
    exact ih hsl ys hys

theorem walkIdemJson_obj (kvs : JsonObj) (ih : WalkIdemObj kvs) :
    WalkIdemJson (.obj kvs) := by
  intro hshape
  have hso : schemaShapedObj kvs = true := by simpa [schemaShaped] using hshape
  refine ⟨walk_obj_idem kvs hso ih, ?_⟩
  intro xs ys harr
  exact absurd harr (fun h => Json.noConfusion h)

theorem walkIdemList_nil : WalkIdemList .nil := by
  intro _ ys hys
  have : walkJsonList .nil = .ok .nil := rfl
  rw [this] at hys
  simp only [Except.ok.injEq] at hys
  subst hys
  exact ⟨this, trivial⟩

theorem walkIdemList_cons (x : Json) (tl : JsonList)
    (ihx : WalkIdemJson x) (ihtl : WalkIdemList tl) : WalkIdemList (.cons x tl) := by
  intro hshape ys hys
  simp only [schemaShapedList, Bool.and_eq_true] at hshape
  rw [walkJsonList_cons] at hys
  cases hx : walk x with
  | error e => rw [hx] at hys; simp at hys
  | ok y =>
      cases htl : walkJsonList tl with
      | error e => rw [hx, htl] at hys; simp at hys
      | ok tys =>
          rw [hx, htl] at hys
          simp only [Except.ok.injEq] at hys
          subst hys
          obtain ⟨hidem, hout⟩ := (ihx hshape.1).1 y hx
          obtain ⟨hidems, houts⟩ := ihtl hshape.2 tys htl
          refine ⟨?_, hout, houts⟩
          rw [walkJsonList_cons, hidem, hidems]

theorem walkIdemObj_nil : WalkIdemObj .nil := by
  intro _ w hw
  have : walkObjEntries .nil = .ok .nil := rfl
  rw [this] at hw
  simp only [Except.ok.injEq] at hw
  subst hw
  exact ⟨EntriesStable_nil, trivial⟩

theorem walkIdemObj_cons (k : String) (v : Json) (tl : JsonObj)
    (ihv : WalkIdemJson v) (ihtl : WalkIdemObj tl) : WalkIdemObj (.cons k v tl) := by
  intro hshape w hw
  obtain ⟨hty, hsix, htlshape⟩ := shapedObj_parts k v tl hshape
  rw [walkObjEntries_cons] at hw
  cases hev : walkEntryValue k v with
  | error e => rw [hev] at hw; simp at hw
  | ok v2 =>
      cases hrest : walkObjEntries tl with
      | error e => rw [hev, hrest] at hw; simp at hw
      | ok tl2 =>
          rw [hev, hrest] at hw
          simp only [Except.ok.injEq] at hw
          subst hw
          obtain ⟨hstl, hntl⟩ := ihtl htlshape tl2 hrest
          have hbranch : walkEntryValue k v2 = .ok v2 ∧
              (isMergeKey k = true → ∀ a b, v2 = .arr (.cons a (.cons b .nil)) →
                mergeCheck a b ≠ .ok true) := by
            by_cases hr : isRecKey k = true
            · have hshv : schemaShaped v = true := hsix (Or.inl hr)
              have hmke : isMergeKey k = false := by
                cases hmm : isMergeKey k with
                | false => rfl
                | true =>
                    rw [mergeKey_not_recKey k hmm] at hr
                    exact Bool.noConfusion hr
              have hmvac : isMergeKey k = true →
                  ∀ a b, v2 = .arr (.cons a (.cons b .nil)) →
                    mergeCheck a b ≠ .ok true :=
                fun hmk => absurd hmk (by simp [hmke])
              cases v with
              | obj kvs2 =>
                  rw [walkEntryValue_obj_rec k kvs2 hr] at hev
                  obtain ⟨hidem, -⟩ := (ihv hshv).1 v2 hev
                  have hev2 : walkNodeCore (walkObjEntries kvs2) = .ok v2 := by
                    rw [← walk_obj_eq]
                    exact hev
                  obtain ⟨w2, r2b, -, -, hv2eq⟩ := walkNodeCore_inv _ _ hev2
                  subst hv2eq
                  refine ⟨?_, hmvac⟩
                  rw [walkEntryValue_obj_rec k r2b hr]
                  exact hidem
              | arr xs =>
                  rw [walkEntryValue_arr_rec k xs hr] at hev
                  cases hys : walkJsonList xs with
                  | error e => rw [hys] at hev; simp at hev
                  | ok ys =>
                      rw [hys] at hev
                      simp only [Except.ok.injEq] at hev
                      subst hev
                      obtain ⟨hysidem, -⟩ := (ihv hshv).2 xs ys rfl hys
                      refine ⟨?_, hmvac⟩
                      rw [walkEntryValue_arr_rec k ys hr, hysidem]
              | null =>
                  rw [walkEntryValue_rec_other k _ hr (fun m h => Json.noConfusion h)
                    (fun xs h => Json.noConfusion h)] at hev
                  simp only [Except.ok.injEq] at hev
                  subst hev
                  exact ⟨walkEntryValue_rec_other k _ hr (fun m h => Json.noConfusion h)
                    (fun xs h => Json.noConfusion h), hmvac⟩
              | jbool b =>
                  rw [walkEntryValue_rec_other k _ hr (fun m h => Json.noConfusion h)
                    (fun xs h => Json.noConfusion h)] at hev
                  simp only [Except.ok.injEq] at hev
                  subst hev
                  exact ⟨walkEntryValue_rec_other k _ hr (fun m h => Json.noConfusion h)
                    (fun xs h => Json.noConfusion h), hmvac⟩
              | jint n =>
                  rw [walkEntryValue_rec_other k _ hr (fun m h => Json.noConfusion h)
                    (fun xs h => Json.noConfusion h)] at hev
                  simp only [Except.ok.injEq] at hev
                  subst hev
                  exact ⟨walkEntryValue_rec_other k _ hr (fun m h => Json.noConfusion h)
                    (fun xs h => Json.noConfusion h), hmvac⟩
              | jfloat n =>
                  rw [walkEntryValue_rec_other k _ hr (fun m h => Json.noConfusion h)
                    (fun xs h => Json.noConfusion h)] at hev
                  simp only [Except.ok.injEq] at hev
                  subst hev
                  exact ⟨walkEntryValue_rec_other k _ hr (fun m h => Json.noConfusion h)
                    (fun xs h => Json.noConfusion h), hmvac⟩
              | jstr s =>
                  rw [walkEntryValue_rec_other k _ hr (fun m h => Json.noConfusion h)
                    (fun xs h => Json.noConfusion h)] at hev
                  simp only [Except.ok.injEq] at hev
                  subst hev
                  exact ⟨walkEntryValue_rec_other k _ hr (fun m h => Json.noConfusion h)
                    (fun xs h => Json.noConfusion h), hmvac⟩
            · by_cases hu : isUnionKey k = true
              · cases v with
                | arr xs =>
                    have hshv : schemaShaped (.arr xs) = true := hsix (Or.inr hu)
                    rw [walkEntryValue_arr_union k xs hr hu] at hev
                    cases hys : walkJsonList xs with
                    | error e => rw [hys] at hev; simp at hev
                    | ok ys =>
                        rw [hys] at hev
                        simp only [Except.ok.injEq] at hev
                        subst hev
                        obtain ⟨hysidem, hysout⟩ := (ihv hshv).2 xs ys rfl hys
                        constructor
                        · rw [walkEntryValue_arr_union k ys hr hu, hysidem]
                        · intro hmk a b habs
                          cases habs
                          obtain ⟨ha, hb2, -⟩ := hysout
                          exact mergeCheck_not_true a b ha hb2
                | obj kvs2 =>
                    rw [walkEntryValue_union_other k _ hr hu
                      (fun xs h => Json.noConfusion h)] at hev
                    simp only [Except.ok.injEq] at hev
                    subst hev
                    exact ⟨walkEntryValue_union_other k _ hr hu
                      (fun xs h => Json.noConfusion h),
                      fun hmk a b habs => absurd habs (fun h => Json.noConfusion h)⟩
                | null =>
                    rw [walkEntryValue_union_other k _ hr hu
                      (fun xs h => Json.noConfusion h)] at hev
                    simp only [Except.ok.injEq] at hev
                    subst hev
                    exact ⟨walkEntryValue_union_other k _ hr hu
                      (fun xs h => Json.noConfusion h),
                      fun hmk a b habs => absurd habs (fun h => Json.noConfusion h)⟩
                | jbool b =>
                    rw [walkEntryValue_union_other k _ hr hu
                      (fun xs h => Json.noConfusion h)] at hev
                    simp only [Except.ok.injEq] at hev
                    subst hev
                    exact ⟨walkEntryValue_union_other k _ hr hu
                      (fun xs h => Json.noConfusion h),
                      fun hmk a b habs => absurd habs (fun h => Json.noConfusion h)⟩
                | jint n =>
                    rw [walkEntryValue_union_other k _ hr hu
                      (fun xs h => Json.noConfusion h)] at hev
                    simp only [Except.ok.injEq] at hev
                    subst hev
                    exact ⟨walkEntryValue_union_other k _ hr hu
                      (fun xs h => Json.noConfusion h),
                      fun hmk a b habs => absurd habs (fun h => Json.noConfusion h)⟩
                | jfloat n =>
                    rw [walkEntryValue_union_other k _ hr hu
                      (fun xs h => Json.noConfusion h)] at hev
                    simp only [Except.ok.injEq] at hev
                    subst hev
                    exact ⟨walkEntryValue_union_other k _ hr hu
                      (fun xs h => Json.noConfusion h),
                      fun hmk a b habs => absurd habs (fun h => Json.noConfusion h)⟩
                | jstr s =>
                    rw [walkEntryValue_union_other k _ hr hu
                      (fun xs h => Json.noConfusion h)] at hev
                    simp only [Except.ok.injEq] at hev
                    subst hev
                    exact ⟨walkEntryValue_union_other k _ hr hu
                      (fun xs h => Json.noConfusion h),
                      fun hmk a b habs => absurd habs (fun h => Json.noConfusion h)⟩
              · have hpl := walkEntryValue_plain k v (by simpa using hr) (by simpa using hu)
                rw [hpl] at hev
                simp only [Except.ok.injEq] at hev
                constructor
                · rw [← hev]
                  exact hpl
                · intro hmk
                  exact absurd (mergeKey_to_unionKey k hmk) hu
          exact ⟨EntriesStable_cons k v2 tl2 hbranch.1 hstl, hbranch.2, hntl⟩

theorem walkIdemJson_all (x : Json) : WalkIdemJson x :=
  Json.rec (motive_1 := WalkIdemJson) (motive_2 := WalkIdemList) (motive_3 := WalkIdemObj)
    (walkIdemJson_of_scalar .null rfl (fun m h => Json.noConfusion h)
      (fun xs h => Json.noConfusion h))
    (fun b => walkIdemJson_of_scalar (.jbool b) rfl (fun m h => Json.noConfusion h)
      (fun xs h => Json.noConfusion h))
    (fun n => walkIdemJson_of_scalar (.jint n) rfl (fun m h => Json.noConfusion h)
      (fun xs h => Json.noConfusion h))
    (fun n => walkIdemJson_of_scalar (.jfloat n) rfl (fun m h => Json.noConfusion h)
      (fun xs h => Json.noConfusion h))
    (fun s => walkIdemJson_of_scalar (.jstr s) rfl (fun m h => Json.noConfusion h)
      (fun xs h => Json.noConfusion h))
    walkIdemJson_arr walkIdemJson_obj walkIdemList_nil walkIdemList_cons
    walkIdemObj_nil walkIdemObj_cons x

/-! ## C3: the sanitizer is idempotent on schema-shaped trees -/

/-- C3: the schema sanitizer is idempotent: for every JSON-Schema-shaped
tree `s` (`schemaShaped`, the claim's domain qualifier: `"type"` arrays hold
only strings, hereditarily at the positions the walk recurses into),
sanitizing the result of sanitizing `s` is the same as sanitizing `s` once —
stated in Kleisli form so that inputs on which the walk raises (where both
sides raise the same way) are covered as well. -/
theorem sanitize_idempotent (s : Json) (h : schemaShaped s = true) :
    (sanitize s).bind sanitize = sanitize s := by
  unfold sanitize
  cases hs : walk s with
  | error e => rfl
  | ok y =>
      have hy := ((walkIdemJson_all s) h).1 y hs
      show walk y = .ok y
      exact hy.1

theorem sanitize_idempotent_witness :
    schemaShaped exIntegerEnum = true ∧
    (sanitize exIntegerEnum).bind sanitize = sanitize exIntegerEnum :=
  ⟨rfl, sanitize_idempotent exIntegerEnum rfl⟩

/-! ## C10: the fresh registry pre-registers exactly the eleven built-ins -/

/-- C10: a freshly constructed `ToolRegistry` is non-empty: `list_tools`
returns exactly the eleven built-in placeholder tool names in registration
order, and `get_tool` succeeds for each of them. -/
theorem fresh_registry_builtin_tools :
    list_tools ToolRegistry.new =
      ["find_symbol", "get_symbols_overview", "find_referencing_symbols",
       "search_for_pattern", "list_dir", "find_file", "edit_symbol", "create_file",
       "delete_file", "analyze_code", "generate_report"] ∧
    (["find_symbol", "get_symbols_overview", "find_referencing_symbols",
      "search_for_pattern", "list_dir", "find_file", "edit_symbol", "create_file",
      "delete_file", "analyze_code", "generate_report"].all
        (fun n => (get_tool ToolRegistry.new n).isSome)) = true := by
  decide

/-! ## C8: re-registering a name replaces the contract, size unchanged -/

/-- C8: registering a tool whose name is already present leaves the number
of registered tools unchanged and replaces the stored contract, so that a
subsequent lookup of that name returns the second registration. -/
theorem register_existing_name_replaces (r : ToolRegistry) (t : SerenaTool)
    (h : t.name ∈ list_tools r) :
    (list_tools (register_tool r t)).length = (list_tools r).length ∧
    get_tool (register_tool r t) t.name = some t := by
  refine ⟨?_, ?_⟩
  · simp only [list_tools, register_tool, List.length_map]
    exact pyDictSet_length_of_mem _ _ _ h
  · simp only [get_tool, register_tool]
    exact pyDictGet_set_same _ _ _

theorem register_existing_name_replaces_witness :
    ("find_symbol" ∈ list_tools ToolRegistry.new) ∧
    ((list_tools (register_tool ToolRegistry.new
        (placeholderTool "find_symbol" "replacement"))).length =
      (list_tools ToolRegistry.new).length ∧
     get_tool (register_tool ToolRegistry.new (placeholderTool "find_symbol" "replacement"))
        "find_symbol" = some (placeholderTool "find_symbol" "replacement")) :=
  ⟨by decide,
   register_existing_name_replaces ToolRegistry.new
     (placeholderTool "find_symbol" "replacement") (by decide)⟩

/-! ## C2: a mode's disabled_tools removes a tool unconditionally -/

/-- C2: a tool name in a mode's `disabled_tools` is never enabled by that
mode, and (for the spec-modelled resolver) is absent from the resolved
visible set whenever that mode is active, regardless of enable lists or the
context whitelist. -/
theorem disabled_tool_never_visible (m : SerenaAgentMode) (x : String)
    (hd : x ∈ m.disabled_tools) :
    is_tool_enabled m x = false ∧
    ∀ (registryNames : List String) (ctx : SerenaAgentContext)
      (modes : List SerenaAgentMode),
      m ∈ modes → x ∉ resolveVisible registryNames ctx modes := by
  refine ⟨by simp [is_tool_enabled, hd], ?_⟩
  intro reg ctx modes hm hmem
  simp only [resolveVisible, List.mem_filter] at hmem
  obtain ⟨-, hden⟩ := hmem
  have hx : x ∈ (modes.map SerenaAgentMode.disabled_tools).flatten :=
    List.mem_flatten.mpr ⟨m.disabled_tools, List.mem_map_of_mem _ hm, hd⟩
  simp [List.contains, List.elem_eq_mem, hx] at hden

theorem disabled_tool_never_visible_witness :
    ("edit_symbol" ∈ modeAnalysis.disabled_tools) ∧
    is_tool_enabled modeAnalysis "edit_symbol" = false ∧
    "edit_symbol" ∉
      resolveVisible (list_tools ToolRegistry.new) contextFull [modeAnalysis] :=
  ⟨by decide,
   (disabled_tool_never_visible modeAnalysis "edit_symbol" (by decide)).1,
   (disabled_tool_never_visible modeAnalysis "edit_symbol" (by decide)).2
     (list_tools ToolRegistry.new) contextFull [modeAnalysis] (by simp)⟩

/-! ## C7: executor exceptions are contained at the adapter boundary -/

/-- C7: an exception raised by a tool executor is caught by
`mcp_tool_wrapper`, logged, and converted into an `"Error: ..."` payload;
the serving loop processes every other call unchanged, so subsequent calls
remain possible. -/
theorem tool_wrapper_catches_executor_exceptions :
    ∀ (toolName e : String),
      mcp_tool_wrapper toolName (.raised e) =
        ("Error: " ++ e, ["Error executing tool " ++ toolName ++ ": " ++ e]) ∧
      ∀ (calls1 calls2 : List (String × ExecOutcome)),
        serveCalls (calls1 ++ (toolName, .raised e) :: calls2) =
          serveCalls calls1 ++ ("Error: " ++ e) :: serveCalls calls2 := by
  intro toolName e
  refine ⟨rfl, ?_⟩
  intro calls1 calls2
  simp [serveCalls, mcp_tool_wrapper]

/-! ## C9: context/mode loading falls back to the documented default -/

/-- C9: for an input string that names neither a built-in preset nor a
loadable configuration file (including malformed files), loading a context
returns the built-in `"default"` context and loading a mode returns the
built-in `"interactive"` mode, each with at least one warning logged and no
exception escaping. -/
theorem load_fallback_to_default
    (context mode : String)
    (cfile : FileLoad SerenaAgentContext) (mfile : FileLoad SerenaAgentMode)
    (hc : context ≠ "default" ∧ context ≠ "minimal" ∧ context ≠ "full")
    (hcf : ∀ c, cfile ≠ .loaded c)
    (hm : mode ≠ "interactive" ∧ mode ≠ "editing" ∧ mode ≠ "analysis" ∧
          mode ≠ "monitoring")
    (hmf : ∀ m, mfile ≠ .loaded m) :
    (SerenaAgentContext.load context cfile).1 = contextDefault ∧
    (SerenaAgentContext.load context cfile).2 ≠ [] ∧
    (SerenaAgentMode.load mode mfile).1 = modeInteractive ∧
    (SerenaAgentMode.load mode mfile).2 ≠ [] := by
  obtain ⟨h1, h2, h3⟩ := hc
  obtain ⟨g1, g2, g3, g4⟩ := hm
  cases cfile with
  | loaded c => exact absurd rfl (hcf c)
  | notLoadable =>
      cases mfile with
      | loaded m => exact absurd rfl (hmf m)
      | notLoadable =>
          simp [SerenaAgentContext.load, SerenaAgentMode.load, h1, h2, h3, g1, g2, g3, g4]
      | loadFailed e =>
          simp [SerenaAgentContext.load, SerenaAgentMode.load, h1, h2, h3, g1, g2, g3, g4]
  | loadFailed e =>
      cases mfile with
      | loaded m => exact absurd rfl (hmf m)
      | notLoadable =>
          simp [SerenaAgentContext.load, SerenaAgentMode.load, h1, h2, h3, g1, g2, g3, g4]
      | loadFailed e2 =>
          simp [SerenaAgentContext.load, SerenaAgentMode.load, h1, h2, h3, g1, g2, g3, g4]

theorem load_fallback_to_default_witness :
    ("bogus_ctx" ≠ "default" ∧ "bogus_ctx" ≠ "minimal" ∧ "bogus_ctx" ≠ "full") ∧
    ((SerenaAgentContext.load "bogus_ctx"
        (FileLoad.notLoadable : FileLoad SerenaAgentContext)).1 = contextDefault ∧
     (SerenaAgentContext.load "bogus_ctx"
        (FileLoad.notLoadable : FileLoad SerenaAgentContext)).2 ≠ [] ∧
     (SerenaAgentMode.load "bogus_mode"
        (FileLoad.loadFailed "malformed json" : FileLoad SerenaAgentMode)).1 =
        modeInteractive ∧
     (SerenaAgentMode.load "bogus_mode"
        (FileLoad.loadFailed "malformed json" : FileLoad SerenaAgentMode)).2 ≠ []) :=
  ⟨by decide,
   load_fallback_to_default "bogus_ctx" "bogus_mode" .notLoadable
     (.loadFailed "malformed json") (by decide) (by intro c; exact fun h => by cases h)
     (by decide) (by intro m; exact fun h => by cases h)⟩

/-! ## C1: the adapter binds the full registry, not the resolved visible set -/

/-- C1 counterexample: in the default server configuration (context
`"default"`, modes `interactive` and `editing`), the tool `"list_dir"` is
hidden by the spec-modelled visibility policy yet the adapter still binds a
wire handler for it, so the bound-handler set differs from the resolved
visible set: invoking the hidden name reaches its executor instead of a
"tool not found" error. -/
theorem hidden_tool_invocation_counterexample :
    "list_dir" ∈ mcpBoundToolNames
      (SerenaAgent.init
        { context := some contextDefault, modes := [modeInteractive, modeEditing] }) ∧
    "list_dir" ∈ list_tools
      (SerenaAgent.init
        { context := some contextDefault,
          modes := [modeInteractive, modeEditing] }).tool_registry ∧
    "list_dir" ∉ resolveVisible
      (list_tools (SerenaAgent.init
        { context := some contextDefault,
          modes := [modeInteractive, modeEditing] }).tool_registry)
      contextDefault [modeInteractive, modeEditing] ∧
    mcpBoundToolNames
      (SerenaAgent.init
        { context := some contextDefault, modes := [modeInteractive, modeEditing] }) ≠
    resolveVisible
      (list_tools (SerenaAgent.init
        { context := some contextDefault,
          modes := [modeInteractive, modeEditing] }).tool_registry)
      contextDefault [modeInteractive, modeEditing] := by
  decide

/-- C1 amended: `_register_tools` creates one wire-bound handler per tool of
the full registry — `get_available_tools` returns every registered tool with
no context/mode filtering — so the bound-handler set equals the registry
enumeration (while the administrative listing of the raw registry likewise
shows every name). -/
theorem register_tools_binds_full_registry (a : SerenaAgent)
    (h : WellFormedRegistry a.tool_registry) :
    mcpBoundToolNames a = list_tools a.tool_registry := by
  simp only [mcpBoundToolNames, get_available_tools, list_tools, List.map_map]
  exact List.map_congr_left h

theorem register_tools_binds_full_registry_witness :
    WellFormedRegistry (SerenaAgent.init {}).tool_registry ∧
    mcpBoundToolNames (SerenaAgent.init {}) =
      list_tools (SerenaAgent.init {}).tool_registry :=
  ⟨by unfold WellFormedRegistry; decide,
   register_tools_binds_full_registry (SerenaAgent.init {})
     (by unfold WellFormedRegistry; decide)⟩

end Serena
